import Mathlib

/-!
# A verification model of the Discord to-do bot's core

This file is a shallow embedding, in Lean 4, of the core of the
`tushargol/Discord-Bot` repository: the encrypted JSON store and the
task/reminder repository (`database.py`), and the two time-expression parsers
(`todo_commands.py`).  External library calls (Fernet encryption, `json`,
`datetime`, `re`, `hmac`) are modelled by explicit executable Lean functions
whose documented behaviour matches the way the program uses them; everything
that is this repository's own code is translated line by line.

Conventions used throughout:

* Instants are natural numbers counting microseconds on the proleptic
  Gregorian calendar (day number of the civil date times the microseconds per
  day, plus the time of day).  This is exactly the resolution of Python's
  `datetime`, so `<=` comparisons and `timedelta` arithmetic in the source
  translate to `Nat` comparisons and additions.
* Python strings are Lean `String`s; most character work happens on
  `List Char` (`String.data`).
-/

/-! ## Calendar and instants (model of Python `datetime`) -/

/-- Microseconds per second — `datetime`'s resolution is the microsecond. -/
def usPerSec : Nat := 1000000

/-- Microseconds per minute. -/
def usPerMin : Nat := 60 * usPerSec

/-- Microseconds per hour. -/
def usPerHour : Nat := 60 * usPerMin

/-- Microseconds per day. -/
def usPerDay : Nat := 24 * usPerHour

/-- Microseconds per week. -/
def usPerWeek : Nat := 7 * usPerDay

/-- Gregorian leap-year rule, as in Python's `calendar.isleap`. -/
def isLeap (y : Nat) : Bool :=
  (y % 4 == 0 && y % 100 != 0) || y % 400 == 0

/-- Days in month `m` (1–12) of year `y`, as in `datetime`. -/
def daysInMonth (y m : Nat) : Nat :=
  if m == 2 then (if isLeap y then 29 else 28)
  else if m == 4 || m == 6 || m == 9 || m == 11 then 30
  else 31

/-- Days in all years before year `y` (year 1 is the first year), mirroring
    `datetime`'s `_days_before_year`. -/
def daysBeforeYear (y : Nat) : Nat :=
  let n := y - 1
  n * 365 + n / 4 - n / 100 + n / 400

/-- Days in the months of year `y` strictly before month `m`, mirroring
    `datetime`'s `_days_before_month`. -/
def daysBeforeMonth (y m : Nat) : Nat :=
  (List.range' 1 (m - 1)).foldl (fun acc k => acc + daysInMonth y k) 0

/-- Day number of the civil date `y-m-d`: 0001-01-01 is day 0. -/
def dayNumber (y m d : Nat) : Nat :=
  daysBeforeYear y + daysBeforeMonth y m + (d - 1)

/-- The instant (microseconds) of the given civil date and time of day. -/
def mkInstant (y mo d h mi s us : Nat) : Nat :=
  dayNumber y mo d * usPerDay + h * usPerHour + mi * usPerMin + s * usPerSec + us

/-- Whole days of an instant. -/
def instDays (i : Nat) : Nat := i / usPerDay

/-- Start-of-day (midnight) of the day an instant falls in. -/
def dayStart (i : Nat) : Nat := instDays i * usPerDay

/-- A date is one `datetime.date` accepts: year 1–9999, month 1–12, day within
    the month. -/
def validDate (y m d : Nat) : Bool :=
  1 ≤ y && y ≤ 9999 && 1 ≤ m && m ≤ 12 && 1 ≤ d && d ≤ daysInMonth y m

/-- A time of day `datetime.time` accepts (seconds 0–59; Python also rejects
    the strptime leap-second values 60/61 at `datetime` construction, which the
    callers observe as the same `ValueError`). -/
def validTime (h mi s : Nat) : Bool :=
  h ≤ 23 && mi ≤ 59 && s ≤ 59

/-! ### Rendering an instant back to a civil date (for `isoformat`)

`ord2ymd` inverts `dayNumber` the way CPython's `_ord2ymd` does; it is used
only to *render* `created_at`/`completed_at` strings, which the repository
never parses back, so no inverse lemmas are needed about it. -/

/-- Find the month of a given zero-based day-of-year `doy` in year `y`,
    returning the month and the day within it.  `m` counts up from 1 and the
    first argument is fuel (12 suffices). -/
def findMonth (y : Nat) : Nat → Nat → Nat → Nat × Nat
  | 0, doy, _ => (12, doy + 1)
  | fuel + 1, doy, m =>
    if doy < daysInMonth y m then (m, doy + 1)
    else findMonth y fuel (doy - daysInMonth y m) (m + 1)

/-- Civil date of a day number (inverse of `dayNumber`), following CPython's
    `_ord2ymd` decomposition into 400/100/4/1-year cycles. -/
def ord2ymd (n : Nat) : Nat × Nat × Nat :=
  let n400 := n / 146097
  let r1 := n % 146097
  let n100 := r1 / 36524
  let r2 := r1 % 36524
  let n4 := r2 / 1461
  let r3 := r2 % 1461
  let n1 := r3 / 365
  let r4 := r3 % 365
  let y := n400 * 400 + n100 * 100 + n4 * 4 + n1 + 1
  if n1 == 4 || n100 == 4 then
    (y - 1, 12, 31)
  else
    let (m, d) := findMonth y 12 r4 1
    (y, m, d)

/-- Left-pad the decimal digits of `n` with zeros to width `w`. -/
def padNum (w n : Nat) : List Char :=
  let ds := Nat.toDigits 10 n
  List.replicate (w - ds.length) '0' ++ ds

/-- Model of `datetime.isoformat()`: `YYYY-MM-DDTHH:MM:SS`, with a
    `.ffffff` microsecond suffix exactly when the microseconds are nonzero. -/
def isoRender (i : Nat) : String :=
  let (y, m, d) := ord2ymd (instDays i)
  let tod := i % usPerDay
  let h := tod / usPerHour
  let mi := tod % usPerHour / usPerMin
  let s := tod % usPerMin / usPerSec
  let us := tod % usPerSec
  String.mk (padNum 4 y ++ '-' :: padNum 2 m ++ '-' :: padNum 2 d ++
    'T' :: padNum 2 h ++ ':' :: padNum 2 mi ++ ':' :: padNum 2 s ++
    (if us == 0 then [] else '.' :: padNum 6 us))

/-! ## Character/string helpers (models of Python `str` operations) -/

/-- ASCII decimal digit test (Python's `\d` on the strings this program
    handles). -/
def isDigitC (c : Char) : Bool := '0' ≤ c && c ≤ '9'

/-- Python `str.strip()` whitespace class, for the inputs at hand. -/
def isWsC (c : Char) : Bool := c == ' ' || c == '\t' || c == '\n' || c == '\r'

/-- Numeric value of a digit character. -/
def digitVal (c : Char) : Nat := c.toNat - '0'.toNat

/-- Value of a digit run, most significant first (Python `int` on a digit
    string). -/
def digitsVal (ds : List Char) : Nat :=
  ds.foldl (fun acc c => acc * 10 + digitVal c) 0

/-- Split a leading digit run off a character list. -/
def takeDigitRun : List Char → List Char × List Char
  | c :: cs =>
    if isDigitC c then
      let (ds, r) := takeDigitRun cs
      (c :: ds, r)
    else ([], c :: cs)
  | [] => ([], [])

/-- Python `str.lower()` (ASCII case fold; the parsers only inspect ASCII). -/
def pyLower (s : String) : List Char := s.data.map Char.toLower

/-- Python `str.strip()`: drop leading and trailing whitespace. -/
def pyStrip (cs : List Char) : List Char :=
  ((cs.dropWhile isWsC).reverse.dropWhile isWsC).reverse

/-- Python `sub in s` substring containment. -/
def isSubstr (pat : List Char) : List Char → Bool
  | [] => pat.isEmpty
  | c :: cs => pat.isPrefixOf (c :: cs) || isSubstr pat cs

/-- Python `c in s` for a single character. -/
def containsChar (c : Char) (cs : List Char) : Bool := cs.contains c

/-! ## `datetime.fromisoformat` (model)

The store records reminder/deadline instants as `isoformat()` strings and
parses them back with `datetime.fromisoformat` inside `try/except ValueError`.
We model the function on the grammar this program can produce (and that the
pre-3.11 `fromisoformat` accepts): a zero-padded `YYYY-MM-DD`, optionally
followed by a single separator character and `HH:MM[:SS[.fff | .ffffff]]`,
with each field range-checked.  Anything else is `none` (= `ValueError`). -/

/-- Exactly `n` digits from the front, with their value. -/
def fixedDigits : Nat → List Char → Option (Nat × List Char)
  | 0, cs => some (0, cs)
  | _ + 1, [] => none
  | n + 1, c :: cs =>
    if isDigitC c then
      match fixedDigits n cs with
      | some (v, r) => some (digitVal c * 10 ^ n + v, r)
      | none => none
    else none

/-- Parse the `HH:MM[:SS[.fff|.ffffff]]` tail of an ISO string, returning
    microseconds-of-day. -/
def fromIsoTime (cs : List Char) : Option Nat :=
  match fixedDigits 2 cs with
  | none => none
  | some (h, r1) =>
    match r1 with
    | ':' :: r2 =>
      match fixedDigits 2 r2 with
      | none => none
      | some (mi, r3) =>
        let secPart : Option (Nat × Nat) :=
          match r3 with
          | [] => some (0, 0)
          | ':' :: r4 =>
            match fixedDigits 2 r4 with
            | none => none
            | some (s, r5) =>
              match r5 with
              | [] => some (s, 0)
              | '.' :: r6 =>
                match fixedDigits 3 r6 with
                | some (ms, []) => some (s, ms * 1000)
                | _ =>
                  match fixedDigits 6 r6 with
                  | some (us, []) => some (s, us)
                  | _ => none
              | _ => none
          | _ => none
        match secPart with
        | none => none
        | some (s, us) =>
          if validTime h mi s then
            some (h * usPerHour + mi * usPerMin + s * usPerSec + us)
          else none
    | _ => none

/-- Model of `datetime.fromisoformat` on the strings this program stores. -/
def fromIso (s : String) : Option Nat :=
  match fixedDigits 4 s.data with
  | none => none
  | some (y, r1) =>
    match r1 with
    | '-' :: r2 =>
      match fixedDigits 2 r2 with
      | none => none
      | some (m, r3) =>
        match r3 with
        | '-' :: r4 =>
          match fixedDigits 2 r4 with
          | none => none
          | some (d, r5) =>
            if validDate y m d then
              match r5 with
              | [] => some (mkInstant y m d 0 0 0 0)
              | _ :: r6 =>
                match fromIsoTime r6 with
                | some tod => some (dayNumber y m d * usPerDay + tod)
                | none => none
            else none
        | _ => none
    | _ => none

/-! ## Regular-expression gates used by `_parse_deadline`

`_parse_deadline` guards each absolute format with `re.match(pattern, s)`
(anchored prefix match, trailing text allowed) before calling `strptime`.
The patterns only combine `\d{n}`, `\d{1,2}` and literals, and every
`\d{1,2}` is followed by a non-digit literal, so regex backtracking reduces
to: take two digits when the second character is a digit (the one-digit
alternative would then need the literal to match a digit, which it cannot),
else one. -/

/-- `\d{n}` — exactly `n` digits, returning the rest. -/
def rxFixed (n : Nat) (cs : List Char) : Option (List Char) :=
  (fixedDigits n cs).map Prod.snd

/-- A literal character. -/
def rxLit (c : Char) : List Char → Option (List Char)
  | c' :: r => if c' == c then some r else none
  | [] => none

/-- `\d{1,2}` followed by the literal `lit` (see the backtracking note above). -/
def rxD12Lit (lit : Char) : List Char → Option (List Char)
  | [] => none
  | [_] => none
  | c0 :: c1 :: rest =>
    if isDigitC c0 then
      if isDigitC c1 then
        match rest with
        | c2 :: r => if c2 == lit then some r else none
        | [] => none
      else if c1 == lit then some rest else none
    else none

/-- `re.match(r'\d{4}-\d{2}-\d{2} \d{2}:\d{2}', s)` as a Boolean. -/
def matchYmdHM (cs : List Char) : Bool :=
  (rxFixed 4 cs |>.bind (rxLit '-') |>.bind (rxFixed 2) |>.bind (rxLit '-')
    |>.bind (rxFixed 2) |>.bind (rxLit ' ') |>.bind (rxFixed 2)
    |>.bind (rxLit ':') |>.bind (rxFixed 2)).isSome

/-- `re.match(r'\d{1,2}/\d{1,2}/\d{4} \d{1,2}:\d{2}', s)` as a Boolean. -/
def matchSlashDT (cs : List Char) : Bool :=
  (rxD12Lit '/' cs |>.bind (rxD12Lit '/') |>.bind (rxFixed 4)
    |>.bind (rxLit ' ') |>.bind (rxD12Lit ':') |>.bind (rxFixed 2)).isSome

/-- `re.match(r'\d{1,2}:\d{2}', s)` as a Boolean. -/
def matchHM (cs : List Char) : Bool :=
  (rxD12Lit ':' cs |>.bind (rxFixed 2)).isSome

/-- `re.match(r'\d{4}-\d{2}-\d{2}', s)` as a Boolean. -/
def matchYmd (cs : List Char) : Bool :=
  (rxFixed 4 cs |>.bind (rxLit '-') |>.bind (rxFixed 2) |>.bind (rxLit '-')
    |>.bind (rxFixed 2)).isSome

/-- `re.match(r'\d{1,2}/\d{1,2}/\d{4}', s)` as a Boolean. -/
def matchSlashD (cs : List Char) : Bool :=
  (rxD12Lit '/' cs |>.bind (rxD12Lit '/') |>.bind (rxFixed 4)).isSome

/-! ## `re.search(r'(\d+)\s*UNIT', s)` (relative "in N unit" amounts)

Leftmost-match search: at each position that starts a digit run, take the
whole run, skip whitespace, and test for the literal unit; otherwise advance
one character.  (The optional trailing `s?` in patterns like `hours?` never
affects whether a match exists, so the unit literal is the stem.) -/

/-- The captured number of the first `(\d+)\s*unit` match, if any. -/
def searchNum (unit : List Char) : List Char → Option Nat
  | [] => none
  | c :: cs =>
    if isDigitC c then
      let (ds, r) := takeDigitRun (c :: cs)
      if unit.isPrefixOf (r.dropWhile isWsC) then some (digitsVal ds)
      else searchNum unit cs
    else searchNum unit cs

/-! ## `datetime.strptime` (model)

Per CPython's `_strptime`, each directive compiles to a regex
(`%Y` = four digits; `%m` = `1[0-2]|0[1-9]|[1-9]`; `%d` =
`3[01]|[12]\d|0[1-9]|[1-9]`; `%H` = `2[0-3]|[0-1]\d|\d`; `%M` = `[0-5]\d|\d`;
`%S` = `6[0-1]|[0-5]\d|\d`), whitespace in the format matches `\s+`, the
whole input must be consumed, and finally the `datetime` constructor
range-checks the date (month-aware day bound, year ≥ 1) and rejects the
leap-second values 60/61 — all failures surfacing as the one `ValueError`
the callers catch.  As with the gates, each 1–2-digit field is followed by a
non-digit, so the two-digit alternatives are taken exactly when the second
character is a digit. -/

/-- A 1–2-digit `strptime` field: `valid2` is the two-digit alternatives'
    range, `valid1` the one-digit alternative's. -/
def spField (valid2 valid1 : Nat → Bool) : List Char → Option (Nat × List Char)
  | c0 :: c1 :: rest =>
    if isDigitC c0 then
      if isDigitC c1 then
        let v := digitVal c0 * 10 + digitVal c1
        if valid2 v then some (v, rest) else none
      else if valid1 (digitVal c0) then some (digitVal c0, c1 :: rest) else none
    else none
  | [c0] =>
    if isDigitC c0 && valid1 (digitVal c0) then some (digitVal c0, []) else none
  | [] => none

/-- `%m` — month 1–12 (no `00`, no `13`–`99`). -/
def spM : List Char → Option (Nat × List Char) :=
  spField (fun v => 1 ≤ v && v ≤ 12) (fun v => 1 ≤ v)

/-- `%d` — day 1–31. -/
def spDay : List Char → Option (Nat × List Char) :=
  spField (fun v => 1 ≤ v && v ≤ 31) (fun v => 1 ≤ v)

/-- `%H` — hour 0–23. -/
def spH : List Char → Option (Nat × List Char) :=
  spField (fun v => v ≤ 23) (fun _ => true)

/-- `%M` — minute 0–59. -/
def spMin : List Char → Option (Nat × List Char) :=
  spField (fun v => v ≤ 59) (fun _ => true)

/-- `%S` — 0–61 in the regex (60/61 then die in the `datetime` constructor). -/
def spSec : List Char → Option (Nat × List Char) :=
  spField (fun v => v ≤ 61) (fun _ => true)

/-- Whitespace in a `strptime` format: `\s+`. -/
def spWs : List Char → Option (List Char)
  | c :: r => if isWsC c then some (r.dropWhile isWsC) else none
  | [] => none

/-- `%Y-%m-%d` prefix: year, month, day and the rest. -/
def spDateYmd (cs : List Char) : Option (Nat × Nat × Nat × List Char) := do
  let (y, r1) ← fixedDigits 4 cs
  let r2 ← rxLit '-' r1
  let (m, r3) ← spM r2
  let r4 ← rxLit '-' r3
  let (d, r5) ← spDay r4
  pure (y, m, d, r5)

/-- `%m/%d/%Y` prefix. -/
def spDateMdY (cs : List Char) : Option (Nat × Nat × Nat × List Char) := do
  let (m, r1) ← spM cs
  let r2 ← rxLit '/' r1
  let (d, r3) ← spDay r2
  let r4 ← rxLit '/' r3
  let (y, r5) ← fixedDigits 4 r4
  pure (y, m, d, r5)

/-- `%d/%m/%Y` prefix. -/
def spDateDmY (cs : List Char) : Option (Nat × Nat × Nat × List Char) := do
  let (d, r1) ← spDay cs
  let r2 ← rxLit '/' r1
  let (m, r3) ← spM r2
  let r4 ← rxLit '/' r3
  let (y, r5) ← fixedDigits 4 r4
  pure (y, m, d, r5)

/-- `%H:%M` prefix, seconds 0. -/
def spTimeHM (cs : List Char) : Option (Nat × Nat × Nat × List Char) := do
  let (h, r1) ← spH cs
  let r2 ← rxLit ':' r1
  let (mi, r3) ← spMin r2
  pure (h, mi, 0, r3)

/-- `%H:%M:%S` prefix. -/
def spTimeHMS (cs : List Char) : Option (Nat × Nat × Nat × List Char) := do
  let (h, r1) ← spH cs
  let r2 ← rxLit ':' r1
  let (mi, r3) ← spMin r2
  let r4 ← rxLit ':' r3
  let (s, r5) ← spSec r4
  pure (h, mi, s, r5)

/-- A whole `DATE TIME` format: parse, require full consumption, then the
    `datetime` constructor's checks. -/
def strpDT (dateP timeP : List Char → Option (Nat × Nat × Nat × List Char))
    (cs : List Char) : Option Nat := do
  let (y, m, d, r1) ← dateP cs
  let r2 ← spWs r1
  let (h, mi, s, r3) ← timeP r2
  if r3.isEmpty && validDate y m d && validTime h mi s then
    pure (mkInstant y m d h mi s 0)
  else none

/-- A whole date-only format, yielding the civil date. -/
def strpD (dateP : List Char → Option (Nat × Nat × Nat × List Char))
    (cs : List Char) : Option (Nat × Nat × Nat) := do
  let (y, m, d, r1) ← dateP cs
  if r1.isEmpty && validDate y m d then pure (y, m, d) else none

/-- `datetime.strptime(s, '%Y-%m-%d %H:%M')`. -/
def spYmdHM : List Char → Option Nat := strpDT spDateYmd spTimeHM

/-- `datetime.strptime(s, '%m/%d/%Y %H:%M')`. -/
def spMdYHM : List Char → Option Nat := strpDT spDateMdY spTimeHM

/-- `datetime.strptime(s, '%d/%m/%Y %H:%M')`. -/
def spDmYHM : List Char → Option Nat := strpDT spDateDmY spTimeHM

/-- `datetime.strptime(s, '%Y-%m-%d %H:%M:%S')`. -/
def spYmdHMS : List Char → Option Nat := strpDT spDateYmd spTimeHMS

/-- `datetime.strptime(s, '%m/%d/%Y %H:%M:%S')`. -/
def spMdYHMS : List Char → Option Nat := strpDT spDateMdY spTimeHMS

/-- `datetime.strptime(s, '%d/%m/%Y %H:%M:%S')`. -/
def spDmYHMS : List Char → Option Nat := strpDT spDateDmY spTimeHMS

/-- `datetime.strptime(s, '%H:%M')`, full consumption (hour/minute ranges are
    already enforced by the field regexes). -/
def spHMonly (cs : List Char) : Option (Nat × Nat) := do
  let (h, mi, _, r) ← spTimeHM cs
  if r.isEmpty then pure (h, mi) else none

/-! ## Further `str`/`int` helpers for `_parse_reminder_time` -/

/-- Python `s.split(sep)` for a one-character separator (no maxsplit). -/
def splitChar (sep : Char) : List Char → List (List Char)
  | [] => [[]]
  | c :: cs =>
    if c == sep then [] :: splitChar sep cs
    else
      match splitChar sep cs with
      | p :: ps => (c :: p) :: ps
      | [] => [[c]]

/-- Whether `s.split()` (whitespace split) yields more than one token, for a
    stripped, nonempty string: true exactly when it contains whitespace. -/
def hasWs (cs : List Char) : Bool := cs.any isWsC

/-- Python `int(s)`: optional surrounding whitespace, optional sign, a digit
    run (digit-grouping underscores are not modelled — no caller passes
    them). `none` is `ValueError`. -/
def pyInt (cs : List Char) : Option Int :=
  let t := pyStrip cs
  let (sgn, t2) : Int × List Char :=
    match t with
    | '+' :: r => (1, r)
    | '-' :: r => (-1, r)
    | _ => (1, t)
  let (ds, r) := takeDigitRun t2
  if ds.isEmpty || !r.isEmpty then none else some (sgn * (digitsVal ds : Int))

/-! ## `TodoCommands._parse_deadline` (todo_commands.py lines 13–80)

The function returns `deadline.isoformat()`; we model the returned instant
itself (the `isoformat` rendering is injective, and the store parses it back
with `fromisoformat`).  `Except.error` carries the `ValueError` message; the
uncaught `AttributeError` Python raises when a unit word is present but
`re.search` finds no number is modelled as a distinguished error. -/

/-- The absolute-format section of `_parse_deadline` (the `try:` block and
    the final `raise`).  The second `elif` of each identically-shaped regex
    pair is kept to mirror the source, although the first branch shadows it. -/
def absoluteDeadline (now : Nat) (ds : List Char) : Except String Nat :=
  let invalid : Except String Nat :=
    .error ("Invalid deadline format: " ++ String.mk ds)
  if matchYmdHM ds then
    match spYmdHM ds with
    | some i => .ok i
    | none => invalid
  else if matchSlashDT ds then
    match spMdYHM ds with
    | some i => .ok i
    | none => invalid
  else if matchSlashDT ds then
    match spDmYHM ds with
    | some i => .ok i
    | none => invalid
  else if matchHM ds then
    match spHMonly ds with
    | some (h, mi) =>
      let cand := dayStart now + h * usPerHour + mi * usPerMin
      .ok (if cand ≤ now then cand + usPerDay else cand)
    | none => invalid
  else if matchYmd ds then
    match strpD spDateYmd ds with
    | some (y, m, d) => .ok (mkInstant y m d 23 59 0 0)
    | none => invalid
  else if matchSlashD ds then
    match strpD spDateMdY ds with
    | some (y, m, d) => .ok (mkInstant y m d 23 59 0 0)
    | none => invalid
  else if matchSlashD ds then
    match strpD spDateDmY ds with
    | some (y, m, d) => .ok (mkInstant y m d 23 59 0 0)
    | none => invalid
  else invalid

/-- `_parse_deadline(deadline_str)` evaluated at `now = datetime.now()`. -/
def parseDeadline (now : Nat) (input : String) : Except String Nat :=
  let ds := (pyStrip input.data).map Char.toLower
  if "in ".data.isPrefixOf ds then
    let tp := ds.drop 3
    if isSubstr "hour".data tp then
      match searchNum "hour".data tp with
      | some n => .ok (now + n * usPerHour)
      | none => .error "AttributeError: NoneType has no group"
    else if isSubstr "day".data tp then
      match searchNum "day".data tp with
      | some n => .ok (now + n * usPerDay)
      | none => .error "AttributeError: NoneType has no group"
    else if isSubstr "week".data tp then
      match searchNum "week".data tp with
      | some n => .ok (now + n * usPerWeek)
      | none => .error "AttributeError: NoneType has no group"
    else if isSubstr "minute".data tp then
      match searchNum "minute".data tp with
      | some n => .ok (now + n * usPerMin)
      | none => .error "AttributeError: NoneType has no group"
    else absoluteDeadline now ds
  else absoluteDeadline now ds

/-! ## `TodoCommands._parse_reminder_time` (todo_commands.py lines 114–207) -/

/-- The ordered `time_patterns` table of the `in X ...` branch: regex stem and
    the `timedelta` (in microseconds) per captured unit.  The trailing `s?` of
    each pattern never affects matching, so the stem suffices; the final
    `hrs?/hr/min` entries are shadowed by earlier stems but kept as in the
    source. -/
def reminderUnits : List (List Char × Nat) :=
  [("year".data, 365 * usPerDay), ("month".data, 30 * usPerDay),
   ("week".data, usPerWeek), ("day".data, usPerDay), ("hour".data, usPerHour),
   ("minute".data, usPerMin), ("min".data, usPerMin), ("hr".data, usPerHour),
   ("hr".data, usPerHour), ("min".data, usPerMin)]

/-- First pattern of the table that matches, with its scaled amount. -/
def firstUnit : List (List Char × Nat) → List Char → Option Nat
  | [], _ => none
  | (stem, scale) :: rest, t =>
    match searchNum stem t with
    | some n => some (n * scale)
    | none => firstUnit rest t

/-- The ordered `date_formats` of the date+time branch, tried first to last. -/
def firstDT : List (List Char → Option Nat) → List Char → Option Nat
  | [], _ => none
  | f :: fs, t =>
    match f t with
    | some i => some i
    | none => firstDT fs t

/-- `_parse_reminder_time(time_str)` evaluated at `now = datetime.now()`. -/
def parseReminderTime (now : Nat) (input : String) : Except String Nat :=
  let ts := (pyStrip input.data).map Char.toLower
  if "in ".data.isPrefixOf ts then
    match firstUnit reminderUnits (ts.drop 3) with
    | some delta => .ok (now + delta)
    | none => .error "Invalid time format. Use: in X hours/minutes/days/weeks"
  else if containsChar ':' ts then
    if !hasWs ts then
      -- just a time: HH:MM, today or tomorrow
      let parts := splitChar ':' ts
      if parts.length == 2 then
        match pyInt parts[0]!, pyInt parts[1]! with
        | some h, some mi =>
          if 0 ≤ h && h ≤ 23 && 0 ≤ mi && mi ≤ 59 then
            let cand := dayStart now + h.toNat * usPerHour + mi.toNat * usPerMin
            .ok (if cand ≤ now then cand + usPerDay else cand)
          else .error "Invalid time format. Use HH:MM"
        | _, _ => .error "Invalid time format. Use HH:MM"
      else .error "Invalid time format. Use HH:MM"
    else
      -- date and time, first-listed format that parses wins
      match firstDT [spYmdHM, spMdYHM, spDmYHM, spYmdHMS, spMdYHMS, spDmYHMS] ts with
      | some i => .ok i
      | none => .error "Invalid date/time format"
  else
    -- date only, set to 9 AM
    match firstDT [fun t => (strpD spDateYmd t).map (fun (y, m, d) => mkInstant y m d 9 0 0 0),
                   fun t => (strpD spDateMdY t).map (fun (y, m, d) => mkInstant y m d 9 0 0 0),
                   fun t => (strpD spDateDmY t).map (fun (y, m, d) => mkInstant y m d 9 0 0 0)] ts with
    | some i => .ok i
    | none => .error "Invalid time format"

/-! ## JSON documents (model of the `json` standard library)

`_save_data` serializes `self.data` with `json.dumps(..., indent=2,
ensure_ascii=False)` and `_load_data` reads it back with `json.loads`.  The
values this program ever persists are null, booleans, non-negative integers,
strings, arrays and string-keyed objects, so `Jval` covers exactly those.
`jrender` models `dumps` up to inter-token whitespace (the `indent=2` pretty
printing inserts only whitespace that `loads` discards, so we render
compactly), with `ensure_ascii=False` string escaping: `"`, `\`, and control
characters escape, everything else is written verbatim.  `jparse` models
`loads` on such documents. -/

inductive Jval where
  | jnull : Jval
  | jbool : Bool → Jval
  | jnum : Nat → Jval
  | jstr : String → Jval
  | jarr : List Jval → Jval
  | jobj : List (String × Jval) → Jval
deriving Repr

/-- Lowercase hex digit. -/
def hexDig (n : Nat) : Char :=
  if n < 10 then Char.ofNat ('0'.toNat + n) else Char.ofNat ('a'.toNat + (n - 10))

/-- JSON escape of one character, per `json.encoder` with
    `ensure_ascii=False`: only `"`, `\` and control characters are escaped
    (the C0 controls with short names get them, the rest become `\u00xx`). -/
def escChar (c : Char) : List Char :=
  if c == '"' then ['\\', '"']
  else if c == '\\' then ['\\', '\\']
  else if c == '\n' then ['\\', 'n']
  else if c == '\t' then ['\\', 't']
  else if c == '\r' then ['\\', 'r']
  else if c.toNat == 8 then ['\\', 'b']
  else if c.toNat == 12 then ['\\', 'f']
  else if c.toNat < 32 then ['\\', 'u', '0', '0', hexDig (c.toNat / 16), hexDig (c.toNat % 16)]
  else [c]

/-- Escape a whole string body. -/
def escStr : List Char → List Char
  | [] => []
  | c :: cs => escChar c ++ escStr cs

/-- Decimal digit characters of `n`, most significant first. -/
def natChars (n : Nat) : List Char :=
  if _h : n < 10 then [Char.ofNat ('0'.toNat + n)]
  else natChars (n / 10) ++ [Char.ofNat ('0'.toNat + n % 10)]
termination_by n
decreasing_by exact Nat.div_lt_self (by omega) (by omega)

mutual

/-- Render a JSON value (model of `json.dumps` modulo whitespace). -/
def jrender : Jval → List Char
  | .jnull => ['n', 'u', 'l', 'l']
  | .jbool true => ['t', 'r', 'u', 'e']
  | .jbool false => ['f', 'a', 'l', 's', 'e']
  | .jnum n => natChars n
  | .jstr s => '"' :: (escStr s.data ++ ['"'])
  | .jarr [] => ['[', ']']
  | .jarr (x :: xs) => '[' :: (jrenderItems x xs ++ [']'])
  | .jobj [] => ['{', '}']
  | .jobj ((k, v) :: fs) => '{' :: (jrenderFields k v fs ++ ['}'])
termination_by j => sizeOf j

/-- Comma-separated rendering of a nonempty array body. -/
def jrenderItems (x : Jval) : List Jval → List Char
  | [] => jrender x
  | y :: ys => jrender x ++ ',' :: jrenderItems y ys
termination_by ys => 1 + sizeOf x + sizeOf ys

/-- Comma-separated rendering of a nonempty object body (key, value, rest). -/
def jrenderFields (k : String) (v : Jval) : List (String × Jval) → List Char
  | [] => '"' :: (escStr k.data ++ ('"' :: ':' :: jrender v))
  | (k2, v2) :: gs =>
    '"' :: (escStr k.data ++ ('"' :: ':' :: (jrender v ++ ',' :: jrenderFields k2 v2 gs)))
termination_by gs => 1 + sizeOf v + sizeOf gs

end


mutual

/-- Parser weight of a value: fuel bound for `jparseVal`. -/
def wV : Jval → Nat
  | .jnull => 1
  | .jbool _ => 1
  | .jnum _ => 1
  | .jstr _ => 1
  | .jarr xs => 1 + wI xs
  | .jobj fs => 1 + wF fs

/-- Parser weight of an array body. -/
def wI : List Jval → Nat
  | [] => 0
  | x :: xs => wV x + 1 + wI xs

/-- Parser weight of an object body. -/
def wF : List (String × Jval) → Nat
  | [] => 0
  | f :: fs => wV f.2 + 1 + wF fs

end


/-! ### The JSON parser (model of `json.loads` on such documents) -/

/-- Hex digit value. -/
def hexVal (c : Char) : Option Nat :=
  if isDigitC c then some (digitVal c)
  else
    let n := c.toNat
    if 97 ≤ n && n ≤ 102 then some (n - 87)
    else if 65 ≤ n && n ≤ 70 then some (n - 55)
    else none

/-- Value of a `\uXXXX` escape's four hex digits. -/
def hex4 (a b c d : Char) : Option Nat := do
  let va ← hexVal a
  let vb ← hexVal b
  let vc ← hexVal c
  let vd ← hexVal d
  pure (((va * 16 + vb) * 16 + vc) * 16 + vd)

/-- The single-character JSON escapes. -/
def unescC : Char → Option Char
  | 'n' => some '\n'
  | 't' => some '\t'
  | 'r' => some '\r'
  | 'b' => some (Char.ofNat 8)
  | 'f' => some (Char.ofNat 12)
  | '"' => some '"'
  | '\\' => some '\\'
  | '/' => some '/'
  | _ => none

/-- Whether a list starts with the given character. -/
def headIs (c : Char) : List Char → Bool
  | x :: _ => x == c
  | [] => false

mutual

/-- Scan a string body up to its closing quote, unescaping. -/
def scanStr (acc : List Char) : List Char → Option (String × List Char)
  | [] => none
  | c :: r =>
    if c == '"' then some (String.mk acc.reverse, r)
    else if c == '\\' then scanEsc acc r
    else scanStr (c :: acc) r
termination_by cs => 2 * cs.length

/-- Scan what follows a backslash. -/
def scanEsc (acc : List Char) : List Char → Option (String × List Char)
  | [] => none
  | e :: r2 =>
    if e == 'u' then
      match r2 with
      | a :: b :: c2 :: d :: r3 =>
        match hex4 a b c2 d with
        | some v => scanStr (Char.ofNat v :: acc) r3
        | none => none
      | _ => none
    else
      match unescC e with
      | some ch => scanStr (ch :: acc) r2
      | none => none
termination_by cs => 2 * cs.length + 1

end


/-- Expect a literal character sequence, returning the rest. -/
def expectLit : List Char → List Char → Option (List Char)
  | [], cs => some cs
  | l :: ls, c :: cs => if c == l then expectLit ls cs else none
  | _ :: _, [] => none

mutual

/-- Parse one JSON value (fuel-indexed; `wV` fuel suffices on rendered
    input).  Dispatch is by the head character, as in any JSON lexer. -/
def jparseVal : Nat → List Char → Option (Jval × List Char)
  | 0, _ => none
  | _ + 1, [] => none
  | fuel + 1, c :: rest =>
    if isDigitC c then
      let p := takeDigitRun (c :: rest)
      some (.jnum (digitsVal p.1), p.2)
    else if c == '"' then
      (scanStr [] rest).map (fun p => (.jstr p.1, p.2))
    else if c == '[' then
      if headIs ']' rest then some (.jarr [], rest.drop 1)
      else (jparseItems fuel rest).map (fun p => (.jarr p.1, p.2))
    else if c == '{' then
      if headIs '}' rest then some (.jobj [], rest.drop 1)
      else (jparseFields fuel rest).map (fun p => (.jobj p.1, p.2))
    else if c == 'n' then
      (expectLit ['u', 'l', 'l'] rest).map (fun r => (.jnull, r))
    else if c == 't' then
      (expectLit ['r', 'u', 'e'] rest).map (fun r => (.jbool true, r))
    else if c == 'f' then
      (expectLit ['a', 'l', 's', 'e'] rest).map (fun r => (.jbool false, r))
    else none
termination_by fuel _ => (fuel, 0)

/-- Parse the one-or-more comma-separated values of a nonempty array body,
    consuming the closing `]`. -/
def jparseItems : Nat → List Char → Option (List Jval × List Char)
  | 0, _ => none
  | fuel + 1, cs =>
    match jparseVal (fuel + 1) cs with
    | none => none
    | some (v, r) =>
      if headIs ',' r then (jparseItems fuel (r.drop 1)).map (fun p => (v :: p.1, p.2))
      else if headIs ']' r then some ([v], r.drop 1)
      else none
termination_by fuel _ => (fuel, 1)

/-- Parse the one-or-more members of a nonempty object body, consuming the
    closing `}`. -/
def jparseFields : Nat → List Char → Option (List (String × Jval) × List Char)
  | 0, _ => none
  | fuel + 1, cs =>
    if headIs '"' cs then
      match scanStr [] (cs.drop 1) with
      | none => none
      | some (k, r1) =>
        if headIs ':' r1 then
          match jparseVal (fuel + 1) (r1.drop 1) with
          | none => none
          | some (v, r3) =>
            if headIs ',' r3 then
              (jparseFields fuel (r3.drop 1)).map (fun p => ((k, v) :: p.1, p.2))
            else if headIs '}' r3 then some ([(k, v)], r3.drop 1)
            else none
        else none
    else none
termination_by fuel _ => (fuel, 1)

end


/-- Model of `json.loads`: parse a whole document (whitespace around and
    between tokens is immaterial — see `jrender`'s header comment — so the
    model works token-to-token). `none` is `json.JSONDecodeError`. -/
def jparse (s : String) : Option Jval :=
  match jparseVal (s.data.length + 1) s.data with
  | some (j, []) => some j
  | _ => none

/-- Head-of-list digit test, used to state where a digit run stops. -/
def headDigit : List Char → Bool
  | c :: _ => isDigitC c
  | [] => false

/-! ### The codec round-trip -/

/-- A continuation that cannot extend the token before it: empty, or starting
    with a JSON separator/closer.  Every context the parser leaves a value in
    satisfies this. -/
def jdelim : List Char → Bool
  | [] => true
  | c :: _ => c == ',' || c == ']' || c == '}'

/-! ## Cryptography models (`_setup_encryption`, `_hash_user_id`,
    `_hash_task_content`, `_encrypt_data`, `_decrypt_data`)

Fernet encryption under the one configured key is modelled by an injective
tagging with inverse (`decryptData (encryptData s) = s`, the property the
store relies on); the HMAC-SHA256 pseudonymization of user ids and content is
modelled by injective tagging (collision-free, as the sources assume of
SHA-256).  `ENABLE_ENCRYPTION` defaults to true and we model that
configuration. -/

/-- Model of `self.fernet.encrypt` in `_encrypt_data`. -/
def encryptData (s : String) : String :=
  String.mk ('E' :: 'N' :: 'C' :: '(' :: (s.data ++ [')']))

/-- Model of `_decrypt_data`: invert `encryptData`; on anything else Python's
    `Fernet.decrypt` raises and the method returns its input unchanged. -/
def decryptData (s : String) : String :=
  match s.data with
  | 'E' :: 'N' :: 'C' :: '(' :: rest =>
    if rest.getLast? == some ')' then String.mk rest.dropLast else s
  | _ => s

/-- Model of `_hash_user_id` (HMAC-SHA256 hex digest keyed by the secret). -/
def hashUserId (uid : String) : String :=
  String.mk ('H' :: '(' :: (uid.data ++ [')']))

/-- Model of `_hash_task_content`. -/
def hashContent (s : String) : String :=
  String.mk ('C' :: '(' :: (s.data ++ [')']))

/-! ## Configuration constants (config.py) -/

/-- `MAX_TASKS_PER_USER` (config.py line 18); `add_task` itself uses the
    literal `50` (database.py line 138), the same value. -/
def MAX_TASKS_PER_USER : Nat := 50

/-- `MAX_REMINDERS_PER_USER` (config.py line 24). -/
def MAX_REMINDERS_PER_USER : Nat := 20

/-- `DATABASE_SAVE_DEBOUNCE` in seconds (config.py line 23, default 30). -/
def DATABASE_SAVE_DEBOUNCE : Nat := 30

/-- `DEADLINE_REMINDER_HOURS` (config.py line 25). -/
def DEADLINE_REMINDER_HOURS : Nat := 12

/-! ## The persisted data model

`self.data` is one JSON object: task lists keyed by pseudonym, plus the two
reserved keys `user_mapping` and `reminders`.  The typed `Doc` splits the
three parts; pseudonyms (`hashUserId` images) never collide with the
reserved key names, so the split is faithful.  Record fields follow the
dicts built in `add_task`/`add_reminder`, in insertion order; the trailing
`task`/`message` fields model the *decrypted plaintext* keys that the read
paths (`get_tasks`, `get_task`, `get_reminders`, `get_due_reminders`,
`get_upcoming_deadlines`) add to the stored dicts in place — absent
(`none`) until such a read happens. -/

structure TaskRec where
  id : Nat
  task_hash : String
  task_encrypted : String
  completed : Bool
  created_at : String
  completed_at : Option String
  deadline : Option String
  reminder_sent : Bool
  task : Option String
deriving Repr, DecidableEq

structure ReminderRec where
  id : Nat
  message_hash : String
  message_encrypted : String
  reminder_time : String
  created_at : String
  sent : Bool
  message : Option String
deriving Repr, DecidableEq

structure Doc where
  users : List (String × List TaskRec)
  user_mapping : List (String × String)
  reminders : List (String × List ReminderRec)
deriving Repr, DecidableEq

/-- The fresh document (`_load_data` returning `{}` plus `__init__`'s two
    reserved keys). -/
def emptyDoc : Doc := ⟨[], [], []⟩

/-- The store's full runtime state: the document plus `_last_save`,
    `_save_pending`, and the persisted file's content (`None` = no file).
    The `_cache` dict is not modelled separately: `_update_user_tasks`
    always writes `self.data` and `self._cache` together, record mutation
    acts on dicts shared by both, and a cache entry created by
    `_get_user_tasks` for an absent user is `[]`, exactly
    `self.data.get(h, [])`; so the cache is observationally the map
    `h ↦ self.data.get(h, [])` at all times and carries no extra state. -/
structure DB where
  doc : Doc
  last_save : Nat
  save_pending : Bool
  file : Option String
deriving Repr, DecidableEq

/-! ### Association-list primitives (Python `dict` semantics) -/

/-- First-match lookup (`d[k]` / `d.get(k)`). -/
def lookupKey {α : Type} (k : String) : List (String × α) → Option α
  | [] => none
  | p :: ps => if p.1 == k then some p.2 else lookupKey k ps

/-- `d[k] = v`: replace the first entry in place, else append (dict insertion
    order). -/
def setKey {α : Type} (k : String) (v : α) : List (String × α) → List (String × α)
  | [] => [(k, v)]
  | p :: ps => if p.1 == k then (k, v) :: ps else p :: setKey k v ps

/-- `del d[k]` (guarded by `k in d` at call sites): drop the first entry. -/
def removeKey {α : Type} (k : String) : List (String × α) → List (String × α)
  | [] => []
  | p :: ps => if p.1 == k then ps else p :: removeKey k ps

/-- `self.data.get(hashed_user_id, [])`, the task list `_get_user_tasks`
    yields (see the cache note on `DB`). -/
def userTasks (d : Doc) (h : String) : List TaskRec := (lookupKey h d.users).getD []

/-! ### Serialization of the document (`json.dumps(self.data, ...)`) -/

/-- A nullable string field. -/
def optStrJ : Option String → Jval
  | none => .jnull
  | some s => .jstr s

/-- The JSON object of one stored task, fields in insertion order, with the
    plaintext `task` key last when a read has added it. -/
def taskToJval (t : TaskRec) : Jval :=
  .jobj ([("id", .jnum t.id), ("task_hash", .jstr t.task_hash),
    ("task_encrypted", .jstr t.task_encrypted), ("completed", .jbool t.completed),
    ("created_at", .jstr t.created_at), ("completed_at", optStrJ t.completed_at),
    ("deadline", optStrJ t.deadline), ("reminder_sent", .jbool t.reminder_sent)]
    ++ (match t.task with
        | none => []
        | some s => [("task", .jstr s)]))

/-- The JSON object of one stored reminder. -/
def remToJval (r : ReminderRec) : Jval :=
  .jobj ([("id", .jnum r.id), ("message_hash", .jstr r.message_hash),
    ("message_encrypted", .jstr r.message_encrypted),
    ("reminder_time", .jstr r.reminder_time), ("created_at", .jstr r.created_at),
    ("sent", .jbool r.sent)]
    ++ (match r.message with
        | none => []
        | some s => [("message", .jstr s)]))

/-- The whole document as the JSON object `json.dumps` serializes. -/
def docToJval (d : Doc) : Jval :=
  .jobj (d.users.map (fun p => (p.1, Jval.jarr (p.2.map taskToJval)))
    ++ [("user_mapping", .jobj (d.user_mapping.map (fun p => (p.1, Jval.jstr p.2)))),
        ("reminders", .jobj (d.reminders.map
          (fun p => (p.1, Jval.jarr (p.2.map remToJval)))))])

/-! ### Reading the document back (typed view of `json.loads`' result)

`_load_data` returns the parsed dict as-is (Python is dynamic); the typed
model re-reads it into `Doc`.  `none` means the JSON value does not have the
shape this program ever writes — a state the typed model cannot represent. -/

def asNum : Jval → Option Nat
  | .jnum n => some n
  | _ => none

def asStr : Jval → Option String
  | .jstr s => some s
  | _ => none

def asBool : Jval → Option Bool
  | .jbool b => some b
  | _ => none

def asOptStr : Jval → Option (Option String)
  | .jnull => some none
  | .jstr s => some (some s)
  | _ => none

def asArr : Jval → Option (List Jval)
  | .jarr xs => some xs
  | _ => none

def asObj : Jval → Option (List (String × Jval))
  | .jobj fs => some fs
  | _ => none

/-- Option-valued map over a list, failing if any element fails. -/
def listMapO {α β : Type} (f : α → Option β) : List α → Option (List β)
  | [] => some []
  | a :: as =>
    match f a, listMapO f as with
    | some b, some bs => some (b :: bs)
    | _, _ => none

def taskOfJval (j : Jval) : Option TaskRec := do
  let fs ← asObj j
  match fs with
  | (k1, v1) :: (k2, v2) :: (k3, v3) :: (k4, v4) :: (k5, v5) :: (k6, v6) ::
      (k7, v7) :: (k8, v8) :: rest =>
    if k1 == "id" && k2 == "task_hash" && k3 == "task_encrypted" && k4 == "completed" &&
        k5 == "created_at" && k6 == "completed_at" && k7 == "deadline" &&
        k8 == "reminder_sent" then do
      let i ← asNum v1
      let th ← asStr v2
      let te ← asStr v3
      let co ← asBool v4
      let ca ← asStr v5
      let cao ← asOptStr v6
      let dl ← asOptStr v7
      let rs ← asBool v8
      let tk ← (match rest with
        | [] => some none
        | [(k9, v9)] => if k9 == "task" then (asStr v9).map some else none
        | _ => none)
      pure ⟨i, th, te, co, ca, cao, dl, rs, tk⟩
    else none
  | _ => none

def remOfJval (j : Jval) : Option ReminderRec := do
  let fs ← asObj j
  match fs with
  | (k1, v1) :: (k2, v2) :: (k3, v3) :: (k4, v4) :: (k5, v5) :: (k6, v6) :: rest =>
    if k1 == "id" && k2 == "message_hash" && k3 == "message_encrypted" &&
        k4 == "reminder_time" && k5 == "created_at" && k6 == "sent" then do
      let i ← asNum v1
      let mh ← asStr v2
      let me ← asStr v3
      let rt ← asStr v4
      let ca ← asStr v5
      let se ← asBool v6
      let ms ← (match rest with
        | [] => some none
        | [(k7, v7)] => if k7 == "message" then (asStr v7).map some else none
        | _ => none)
      pure ⟨i, mh, me, rt, ca, se, ms⟩
    else none
  | _ => none

def tasksOfJval (j : Jval) : Option (List TaskRec) :=
  (asArr j).bind (listMapO taskOfJval)

def remsOfJval (j : Jval) : Option (List ReminderRec) :=
  (asArr j).bind (listMapO remOfJval)

/-- The typed document of a parsed JSON value: user entries are all keys
    except the two reserved ones, in order; the reserved keys hold the
    identity mapping and the reminder lists. -/
def docOfJval (j : Jval) : Option Doc := do
  let fs ← asObj j
  let userFs := fs.filter (fun p => !(p.1 == "user_mapping" || p.1 == "reminders"))
  let users ← listMapO (fun p => (tasksOfJval p.2).map (fun ts => (p.1, ts))) userFs
  let umJ ← lookupKey "user_mapping" fs
  let umFs ← asObj umJ
  let um ← listMapO (fun p => (asStr p.2).map (fun s => (p.1, s))) umFs
  let remJ ← lookupKey "reminders" fs
  let remFs ← asObj remJ
  let rems ← listMapO (fun p => (remsOfJval p.2).map (fun rs => (p.1, rs))) remFs
  pure ⟨users, um, rems⟩

/-! ## `_save_data` / `_load_data` (database.py lines 78–115) -/

/-- `_save_data(force)` at wall-clock instant `t`.  The Boolean records
    whether the file write actually happened (the observable effect); the
    debounce condition is
    `not force and (now - self._last_save).total_seconds() < DATABASE_SAVE_DEBOUNCE`,
    exact in microseconds.  A deferred save only sets `_save_pending`. -/
def saveDataF (t : Nat) (force : Bool) (db : DB) : DB × Bool :=
  if !force && (t - db.last_save < DATABASE_SAVE_DEBOUNCE * usPerSec) then
    ({ db with save_pending := true }, false)
  else
    ({ db with
        file := some (encryptData (String.mk (jrender (docToJval db.doc)))),
        last_save := t,
        save_pending := false }, true)

/-- The debounced save as the mutating operations call it (`self._save_data()`). -/
def saveData (t : Nat) (db : DB) : DB := (saveDataF t false db).1

/-- `force_save()` (database.py line 450). -/
def forceSave (t : Nat) (db : DB) : DB := (saveDataF t true db).1

/-- `_load_data` composed with `__init__`'s reserved-key defaults, as a typed
    document: a missing or blank file and any unparsable content fall back to
    the empty document (the logged `except` branch); `none` only for JSON
    that parses to a shape outside this program's data model. -/
def loadDoc (f : Option String) : Option Doc :=
  match f with
  | none => some emptyDoc
  | some content =>
    if (pyStrip content.data).isEmpty then some emptyDoc
    else
      match jparse (decryptData content) with
      | some j => docOfJval j
      | none => some emptyDoc

/-! ## Repository operations (database.py lines 129–452)

Each operation takes the wall-clock instant `t` at which it runs (every
`datetime.now()` in its body) and returns its Python result paired with the
successor state. -/

/-- Mutate the first element satisfying `p` (Python's `for`-loop-with-`return`
    and `matching[0]` idioms). -/
def modifyFirst {α : Type} (p : α → Bool) (f : α → α) : List α → List α
  | [] => []
  | a :: as => if p a then f a :: as else a :: modifyFirst p f as

/-- `for i, task in enumerate(filtered_tasks, 1): task['id'] = i`. -/
def renumberTasks (i : Nat) : List TaskRec → List TaskRec
  | [] => []
  | tk :: ts => { tk with id := i } :: renumberTasks (i + 1) ts

/-- The reminder-list renumbering in `delete_reminder`. -/
def renumberRems (i : Nat) : List ReminderRec → List ReminderRec
  | [] => []
  | r :: rs => { r with id := i } :: renumberRems (i + 1) rs

/-- `add_task(user_id, task, deadline=None)` (lines 129–157).  The identity
    mapping is written *before* the capacity check, so it updates even on a
    declined add; the capacity check uses the literal `50`. -/
def addTask (t : Nat) (uid task : String) (deadline : Option String) (db : DB) : Bool × DB :=
  let h := hashUserId uid
  let doc1 := { db.doc with user_mapping := setKey h (encryptData uid) db.doc.user_mapping }
  let tasks := userTasks doc1 h
  if 50 ≤ tasks.length then (false, { db with doc := doc1 })
  else
    let tr : TaskRec :=
      { id := tasks.length + 1, task_hash := hashContent task,
        task_encrypted := encryptData task, completed := false,
        created_at := isoRender t, completed_at := none,
        deadline := deadline, reminder_sent := false, task := none }
    let doc2 := { doc1 with users := setKey h (tasks ++ [tr]) doc1.users }
    (true, saveData t { db with doc := doc2 })

/-- The in-place plaintext decoration `task['task'] = self._decrypt_data(...)`
    performed by the read paths. -/
def decorateTask (tk : TaskRec) : TaskRec :=
  { tk with task := some (decryptData tk.task_encrypted) }

/-- `get_tasks(user_id)` (lines 159–169): returns the list *and* leaves the
    decrypted `task` fields behind in the shared stored dicts. -/
def getTasks (uid : String) (db : DB) : List TaskRec × DB :=
  let h := hashUserId uid
  let tasks := (userTasks db.doc h).map decorateTask
  match lookupKey h db.doc.users with
  | some _ => (tasks, { db with doc := { db.doc with users := setKey h tasks db.doc.users } })
  | none => (tasks, db)

/-- `get_task(user_id, task_id)` (lines 171–185): decorates (in place) and
    returns the first task with the given id. -/
def getTask (uid : String) (tid : Nat) (db : DB) : Option TaskRec × DB :=
  let h := hashUserId uid
  let tasks := userTasks db.doc h
  match tasks.filter (fun tk => tk.id == tid) with
  | [] => (none, db)
  | tk :: _ =>
    let tasks2 := modifyFirst (fun x => x.id == tid) decorateTask tasks
    (some (decorateTask tk),
      { db with doc := { db.doc with users := setKey h tasks2 db.doc.users } })

/-- `complete_task(user_id, task_id)` (lines 187–199). -/
def completeTask (t : Nat) (uid : String) (tid : Nat) (db : DB) : Bool × DB :=
  let h := hashUserId uid
  let tasks := userTasks db.doc h
  if tasks.any (fun tk => tk.id == tid && !tk.completed) then
    let tasks2 := modifyFirst (fun tk => tk.id == tid && !tk.completed)
      (fun tk => { tk with completed := true, completed_at := some (isoRender t) }) tasks
    (true, saveData t { db with doc := { db.doc with users := setKey h tasks2 db.doc.users } })
  else (false, db)

/-- `uncomplete_task(user_id, task_id)` (lines 201–213). -/
def uncompleteTask (t : Nat) (uid : String) (tid : Nat) (db : DB) : Bool × DB :=
  let h := hashUserId uid
  let tasks := userTasks db.doc h
  if tasks.any (fun tk => tk.id == tid && tk.completed) then
    let tasks2 := modifyFirst (fun tk => tk.id == tid && tk.completed)
      (fun tk => { tk with completed := false, completed_at := none }) tasks
    (true, saveData t { db with doc := { db.doc with users := setKey h tasks2 db.doc.users } })
  else (false, db)

/-- `remove_task(user_id, task_id)` (lines 215–231): filter out the id, then
    renumber 1..N in place. -/
def removeTask (t : Nat) (uid : String) (tid : Nat) (db : DB) : Bool × DB :=
  let h := hashUserId uid
  let tasks := userTasks db.doc h
  let filtered := tasks.filter (fun tk => !(tk.id == tid))
  if filtered.length == tasks.length then (false, db)
  else
    (true, saveData t { db with doc :=
      { db.doc with users := setKey h (renumberTasks 1 filtered) db.doc.users } })

/-- `clear_completed_tasks(user_id)` (lines 233–246). -/
def clearCompletedTasks (t : Nat) (uid : String) (db : DB) : Nat × DB :=
  let h := hashUserId uid
  let tasks := userTasks db.doc h
  let completed := tasks.filter (fun tk => tk.completed)
  let remaining := tasks.filter (fun tk => !tk.completed)
  (completed.length, saveData t { db with doc :=
    { db.doc with users := setKey h (renumberTasks 1 remaining) db.doc.users } })

/-- `clear_all_tasks(user_id)` (lines 248–265): deletes the task list *and*
    the identity-mapping entry (reminders stay). -/
def clearAllTasks (t : Nat) (uid : String) (db : DB) : Nat × DB :=
  let h := hashUserId uid
  let count := (userTasks db.doc h).length
  (count, saveData t { db with doc :=
    { db.doc with users := removeKey h db.doc.users,
                  user_mapping := removeKey h db.doc.user_mapping } })

/-- `add_reminder(user_id, message, reminder_time)` (lines 267–295): writes
    the mapping, materializes an empty list for a new user, then checks the
    configured maximum; only a successful append persists. -/
def addReminder (t : Nat) (uid message timeStr : String) (db : DB) : Bool × DB :=
  let h := hashUserId uid
  let doc1 := { db.doc with user_mapping := setKey h (encryptData uid) db.doc.user_mapping }
  let doc2 :=
    match lookupKey h doc1.reminders with
    | some _ => doc1
    | none => { doc1 with reminders := setKey h [] doc1.reminders }
  let rs := (lookupKey h doc2.reminders).getD []
  if MAX_REMINDERS_PER_USER ≤ rs.length then (false, { db with doc := doc2 })
  else
    let rr : ReminderRec :=
      { id := rs.length + 1, message_hash := hashContent message,
        message_encrypted := encryptData message, reminder_time := timeStr,
        created_at := isoRender t, sent := false, message := none }
    let doc3 := { doc2 with reminders := setKey h (rs ++ [rr]) doc2.reminders }
    (true, saveData t { db with doc := doc3 })

/-- The in-place plaintext decoration of a reminder's `message`. -/
def decorateRem (r : ReminderRec) : ReminderRec :=
  { r with message := some (decryptData r.message_encrypted) }

/-- `get_reminders(user_id)` (lines 297–307): decorates every stored
    reminder of the user in place and returns them. -/
def getReminders (uid : String) (db : DB) : List ReminderRec × DB :=
  let h := hashUserId uid
  let rs := ((lookupKey h db.doc.reminders).getD []).map decorateRem
  match lookupKey h db.doc.reminders with
  | some _ =>
    (rs, { db with doc := { db.doc with reminders := setKey h rs db.doc.reminders } })
  | none => (rs, db)

/-- `delete_reminder(user_id, reminder_id)` (lines 309–326). -/
def deleteReminder (t : Nat) (uid : String) (rid : Nat) (db : DB) : Bool × DB :=
  let h := hashUserId uid
  let rs := (lookupKey h db.doc.reminders).getD []
  let filtered := rs.filter (fun r => !(r.id == rid))
  if filtered.length == rs.length then (false, db)
  else
    (true, saveData t { db with doc :=
      { db.doc with reminders := setKey h (renumberRems 1 filtered) db.doc.reminders } })

/-- `clear_reminders(user_id)` (lines 328–337). -/
def clearReminders (t : Nat) (uid : String) (db : DB) : Nat × DB :=
  let h := hashUserId uid
  let count := ((lookupKey h db.doc.reminders).getD []).length
  (count, saveData t { db with doc :=
    { db.doc with reminders := removeKey h db.doc.reminders } })

/-! ### The due-item scanner (lines 339–423) -/

/-- One record of `get_due_reminders()`'s result. -/
structure DueRec where
  user_id : Option String
  hashed_user_id : String
  reminder : ReminderRec
deriving Repr, DecidableEq

/-- One record of `get_upcoming_deadlines()`'s result. -/
structure UpRec where
  user_id : Option String
  hashed_user_id : String
  task : TaskRec
deriving Repr, DecidableEq

/-- A reminder is due: `sent` unset, `fromisoformat` succeeds, fire time
    `<= now` (a `ValueError` on the stored string skips the reminder). -/
def isDueRem (t : Nat) (r : ReminderRec) : Bool :=
  !r.sent &&
    (match fromIso r.reminder_time with
     | some ft => ft ≤ t
     | none => false)

/-- `list.append` fan-out over entries. -/
def flatMapP {α β : Type} (f : α → List β) : List α → List β
  | [] => []
  | a :: as => f a ++ flatMapP f as

/-- The identity-mapping resolution used by both scans: the decrypted real
    identifier, or `None` when the mapping entry is missing. -/
def resolveUser (d : Doc) (h : String) : Option String :=
  (lookupKey h d.user_mapping).map decryptData

/-- `get_due_reminders()` (lines 339–377): the due, unsent reminders of every
    user (the literal `user_mapping` key is skipped), each decorated with its
    decrypted message — in place, so the decoration also lands in the stored
    lists — and paired with the resolved real identifier (or `None`). -/
def getDueReminders (t : Nat) (db : DB) : List DueRec × DB :=
  let out := flatMapP (fun p =>
    if p.1 == "user_mapping" then []
    else
      let due := (p.2.filter (isDueRem t)).map decorateRem
      if due.isEmpty then []
      else due.map (fun r => ⟨resolveUser db.doc p.1, p.1, r⟩)) db.doc.reminders
  let doc2 := { db.doc with reminders := db.doc.reminders.map (fun p =>
    if p.1 == "user_mapping" then p
    else (p.1, p.2.map (fun r => if isDueRem t r then decorateRem r else r))) }
  (out, { db with doc := doc2 })

/-- A task has an upcoming deadline (`get_upcoming_deadlines`' filter):
    `deadline` set and truthy (the empty string is falsy), not completed,
    deadline reminder not sent, and `now <= deadline <= now + hours`. -/
def isUpcoming (t hours : Nat) (tk : TaskRec) : Bool :=
  match tk.deadline with
  | none => false
  | some s =>
    !(s == "") && !tk.completed && !tk.reminder_sent &&
      (match fromIso s with
       | some dl => t ≤ dl && dl ≤ t + hours * usPerHour
       | none => false)

/-- `get_upcoming_deadlines(hours_ahead=DEADLINE_REMINDER_HOURS)` (lines
    379–423); iterating `self.data` minus the reserved keys is iterating
    `users`. -/
def getUpcomingDeadlines (t : Nat) (db : DB)
    (hours : Nat := DEADLINE_REMINDER_HOURS) : List UpRec × DB :=
  let out := flatMapP (fun p =>
    let up := (p.2.filter (isUpcoming t hours)).map decorateTask
    if up.isEmpty then []
    else up.map (fun tk => ⟨resolveUser db.doc p.1, p.1, tk⟩)) db.doc.users
  let doc2 := { db.doc with users := db.doc.users.map (fun p =>
    (p.1, p.2.map (fun tk => if isUpcoming t hours tk then decorateTask tk else tk))) }
  (out, { db with doc := doc2 })

/-- `mark_reminder_sent(hashed_user_id, reminder_id)` (lines 425–435). -/
def markReminderSent (t : Nat) (h : String) (rid : Nat) (db : DB) : Bool × DB :=
  let rs := (lookupKey h db.doc.reminders).getD []
  if rs.any (fun r => r.id == rid) then
    let rs2 := modifyFirst (fun r => r.id == rid) (fun r => { r with sent := true }) rs
    (true, saveData t { db with doc :=
      { db.doc with reminders := setKey h rs2 db.doc.reminders } })
  else (false, db)

/-- `mark_deadline_reminder_sent(hashed_user_id, task_id)` (lines 437–448).
    (For the unreachable pseudonym `user_mapping`/`reminders` the Python
    would crash iterating a dict; the typed split makes it a plain miss.) -/
def markDeadlineReminderSent (t : Nat) (h : String) (tid : Nat) (db : DB) : Bool × DB :=
  match lookupKey h db.doc.users with
  | none => (false, db)
  | some ts =>
    if ts.any (fun tk => tk.id == tid) then
      let ts2 := modifyFirst (fun tk => tk.id == tid)
        (fun tk => { tk with reminder_sent := true }) ts
      (true, saveData t { db with doc :=
        { db.doc with users := setKey h ts2 db.doc.users } })
    else (false, db)

/-! ### Operation sequences -/

/-- One repository operation, with the instant it runs at. -/
inductive Op where
  | opAddTask (t : Nat) (uid task : String) (deadline : Option String)
  | opGetTasks (uid : String)
  | opGetTask (uid : String) (tid : Nat)
  | opCompleteTask (t : Nat) (uid : String) (tid : Nat)
  | opUncompleteTask (t : Nat) (uid : String) (tid : Nat)
  | opRemoveTask (t : Nat) (uid : String) (tid : Nat)
  | opClearCompleted (t : Nat) (uid : String)
  | opClearAll (t : Nat) (uid : String)
  | opAddReminder (t : Nat) (uid msg timeStr : String)
  | opGetReminders (uid : String)
  | opDeleteReminder (t : Nat) (uid : String) (rid : Nat)
  | opClearReminders (t : Nat) (uid : String)
  | opGetDue (t : Nat)
  | opGetUpcoming (t hours : Nat)
  | opMarkRemSent (t : Nat) (h : String) (rid : Nat)
  | opMarkDeadlineSent (t : Nat) (h : String) (tid : Nat)
  | opForceSave (t : Nat)
deriving Repr

/-- Apply one operation (result discarded). -/
def applyOp : Op → DB → DB
  | .opAddTask t uid task dl, db => (addTask t uid task dl db).2
  | .opGetTasks uid, db => (getTasks uid db).2
  | .opGetTask uid tid, db => (getTask uid tid db).2
  | .opCompleteTask t uid tid, db => (completeTask t uid tid db).2
  | .opUncompleteTask t uid tid, db => (uncompleteTask t uid tid db).2
  | .opRemoveTask t uid tid, db => (removeTask t uid tid db).2
  | .opClearCompleted t uid, db => (clearCompletedTasks t uid db).2
  | .opClearAll t uid, db => (clearAllTasks t uid db).2
  | .opAddReminder t uid msg ts, db => (addReminder t uid msg ts db).2
  | .opGetReminders uid, db => (getReminders uid db).2
  | .opDeleteReminder t uid rid, db => (deleteReminder t uid rid db).2
  | .opClearReminders t uid, db => (clearReminders t uid db).2
  | .opGetDue t, db => (getDueReminders t db).2
  | .opGetUpcoming t hours, db => (getUpcomingDeadlines t db hours).2
  | .opMarkRemSent t h rid, db => (markReminderSent t h rid db).2
  | .opMarkDeadlineSent t h tid, db => (markDeadlineReminderSent t h tid db).2
  | .opForceSave t, db => forceSave t db

/-- Run a sequence of operations left to right. -/
def runOps (ops : List Op) (db : DB) : DB := ops.foldl (fun d op => applyOp op d) db

/-- The state of a freshly constructed `TodoDatabase` with no database file,
    at construction instant `t0`. -/
def initDB (t0 : Nat) : DB := ⟨emptyDoc, t0, false, none⟩

/-! ## The state invariant (spec §3): capacity bounds, dense ids, unique keys -/

/-- The repository invariant: every user holds at most 50 tasks and 20
    reminders whose ids are exactly `1..N` in list order; all dictionary
    keys are unique; no stored key collides with the reserved names. -/
def StoreInv (db : DB) : Prop :=
  (∀ p ∈ db.doc.users, p.2.length ≤ 50 ∧
    p.2.map (fun tk => tk.id) = List.range' 1 p.2.length ∧
    p.1 ≠ "user_mapping" ∧ p.1 ≠ "reminders") ∧
  (∀ p ∈ db.doc.reminders, p.2.length ≤ 20 ∧
    p.2.map (fun r => r.id) = List.range' 1 p.2.length ∧
    p.1 ≠ "user_mapping") ∧
  (db.doc.users.map Prod.fst).Nodup ∧
  (db.doc.reminders.map Prod.fst).Nodup ∧
  (db.doc.user_mapping.map Prod.fst).Nodup

instance (db : DB) : Decidable (StoreInv db) := by
  unfold StoreInv
  infer_instance

/-- The shape forced by a `\d{1,2}` + literal match: a leading digit, with the
    literal in position 1 or (after a second digit) position 2. -/
def slashShape (lit : Char) (cs : List Char) : Prop :=
  ∃ c0 c1 rest, cs = c0 :: c1 :: rest ∧ isDigitC c0 = true ∧
    (c1 = lit ∨ (isDigitC c1 = true ∧ ∃ r2, rest = lit :: r2))

/-- A document holding at least one entry somewhere. -/
def docNonEmpty (d : Doc) : Bool :=
  !(d.users.isEmpty && d.user_mapping.isEmpty && d.reminders.isEmpty)

/-- One successful-or-declined `add_task` step of the C1 capacity scenario. -/
def addStep (db : DB) : DB := (addTask 0 "u" "tk" none db).2

/-- The `now` of the C4 lookahead scenario: 2024-06-01 12:00. -/
def c4now : Nat := mkInstant 2024 6 1 12 0 0 0

/-- A stored task with the given deadline string and completion flag. -/
def c4task (dl : String) (completed : Bool) : TaskRec :=
  { id := 1, task_hash := hashContent "tk", task_encrypted := encryptData "tk",
    completed := completed, created_at := isoRender 0, completed_at := none,
    deadline := some dl, reminder_sent := false, task := none }

/-- Three owners: deadlines now+11h (open), now+13h (open), now+11h (done). -/
def c4db : DB :=
  ⟨⟨[("Hu", [c4task "2024-06-01T23:00:00" false]),
     ("Hv", [c4task "2024-06-02T01:00:00" false]),
     ("Hw", [c4task "2024-06-01T23:00:00" true])], [], []⟩, 0, false, none⟩

/-- Two stored reminders for one owner (ids 1 and 2), both already due. -/
def dbC3 : DB :=
  (addReminder 2 "u" "m2" "2024-01-01T10:00:00"
    (addReminder 1 "u" "m1" "2024-01-01T09:00:00" (initDB 0)).2).2

/-- What `get_due_reminders` returns for the second reminder of `dbC3`. -/
def dueD2 : DueRec :=
  ⟨some "u", hashUserId "u",
    { id := 2, message_hash := hashContent "m2", message_encrypted := encryptData "m2",
      reminder_time := "2024-01-01T10:00:00", created_at := isoRender 2, sent := false,
      message := some "m2" }⟩

/-- An owner holding one reminder (and no tasks), for the C10 scenario. -/
def dbC10 : DB := (addReminder 0 "u" "m" "2024-01-01T10:00:00" (initDB 0)).2

/-! ### Round-trip lemmas: decimal digits -/

theorem digitChar_spec (k : Nat) (h : k < 10) :
    isDigitC (Char.ofNat ('0'.toNat + k)) = true ∧
      digitVal (Char.ofNat ('0'.toNat + k)) = k := by
  interval_cases k <;> exact ⟨by decide, by decide⟩

theorem natChars_ne_nil (n : Nat) : natChars n ≠ [] := by
  rw [natChars]
  split <;> simp

theorem natChars_all_digits (n : Nat) : ∀ c ∈ natChars n, isDigitC c = true := by
  induction n using Nat.strong_induction_on with
  | _ n ih =>
    rw [natChars]
    split
    · intro c hc
      rw [List.mem_singleton] at hc
      subst hc
      exact (digitChar_spec n (by omega)).1
    · intro c hc
      rw [List.mem_append] at hc
      rcases hc with hc | hc
      · exact ih (n / 10) (Nat.div_lt_self (by omega) (by omega)) c hc
      · rw [List.mem_singleton] at hc
        subst hc
        exact (digitChar_spec (n % 10) (Nat.mod_lt _ (by omega))).1

theorem digitsVal_append_one (ds : List Char) (c : Char) :
    digitsVal (ds ++ [c]) = digitsVal ds * 10 + digitVal c := by
  simp [digitsVal, List.foldl_append]

theorem digitsVal_natChars (n : Nat) : digitsVal (natChars n) = n := by
  induction n using Nat.strong_induction_on with
  | _ n ih =>
    rw [natChars]
    split
    · rename_i h
      simp only [digitsVal, List.foldl_cons, List.foldl_nil]
      have := (digitChar_spec n (by omega)).2
      omega
    · rename_i h
      rw [digitsVal_append_one, ih (n / 10) (Nat.div_lt_self (by omega) (by omega))]
      have := (digitChar_spec (n % 10) (Nat.mod_lt _ (by omega))).2
      omega

theorem takeDigitRun_stop (r : List Char) (h : headDigit r = false) :
    takeDigitRun r = ([], r) := by
  cases r with
  | nil => rfl
  | cons c t => simp [takeDigitRun, show isDigitC c = false from h]

theorem takeDigitRun_append (ds r : List Char) (hds : ∀ c ∈ ds, isDigitC c = true)
    (hr : headDigit r = false) : takeDigitRun (ds ++ r) = (ds, r) := by
  induction ds with
  | nil => simpa using takeDigitRun_stop r hr
  | cons c t ih =>
    have hc : isDigitC c = true := hds c (by simp)
    have ht := ih (fun x hx => hds x (by simp [hx]))
    simp [takeDigitRun, hc, ht]

/-- Every rendered value starts with a character other than `]` (needed to
    steer the array branch), and a digit only for numbers. -/
theorem isDigitC_ne_rbrack {c : Char} (h : isDigitC c = true) : c ≠ ']' := by
  intro he
  subst he
  exact absurd h (by decide)

/-! ### Round-trip lemmas: string escaping -/

theorem hexVal_hexDig (k : Nat) (h : k < 16) : hexVal (hexDig k) = some k := by
  interval_cases k <;> decide

theorem scanStr_escChar (c : Char) (acc r : List Char) :
    scanStr acc (escChar c ++ r) = scanStr (c :: acc) r := by
  by_cases h1 : c == '"'
  · rw [eq_of_beq h1]
    simp [escChar, scanStr]
    unfold scanEsc
    simp [unescC]
  · by_cases h2 : c == '\\'
    · rw [eq_of_beq h2]
      simp [escChar, scanStr]
      unfold scanEsc
      simp [unescC]
    · by_cases h3 : c == '\n'
      · rw [eq_of_beq h3]
        simp [escChar, scanStr]
        unfold scanEsc
        simp [unescC]
      · by_cases h4 : c == '\t'
        · rw [eq_of_beq h4]
          simp [escChar, scanStr]
          unfold scanEsc
          simp [unescC]
        · by_cases h5 : c == '\r'
          · rw [eq_of_beq h5]
            simp [escChar, scanStr]
            unfold scanEsc
            simp [unescC]
          · by_cases h6 : c.toNat == 8
            · have hc : c = Char.ofNat 8 := by
                rw [← eq_of_beq h6, Char.ofNat_toNat]
              subst hc
              simp [escChar, scanStr]
              unfold scanEsc
              simp [unescC]
            · by_cases h7 : c.toNat == 12
              · have hc : c = Char.ofNat 12 := by
                  rw [← eq_of_beq h7, Char.ofNat_toNat]
                subst hc
                simp [escChar, scanStr]
                unfold scanEsc
                simp [unescC]
              · by_cases h8 : c.toNat < 32
                · -- the \u00xx escape
                  have hesc : escChar c =
                      ['\\', 'u', '0', '0', hexDig (c.toNat / 16), hexDig (c.toNat % 16)] := by
                    simp only [escChar, h1, h2, h3, h4, h5, h6, h7, if_pos h8,
                      Bool.false_eq_true, if_false]
                  have hv : hex4 '0' '0' (hexDig (c.toNat / 16)) (hexDig (c.toNat % 16))
                      = some c.toNat := by
                    have hhi : hexVal (hexDig (c.toNat / 16)) = some (c.toNat / 16) :=
                      hexVal_hexDig _ (by omega)
                    have hlo : hexVal (hexDig (c.toNat % 16)) = some (c.toNat % 16) :=
                      hexVal_hexDig _ (Nat.mod_lt _ (by omega))
                    simp only [hex4, hhi, hlo, Option.bind_some]
                    show some ((((0 * 16 + 0) * 16 + c.toNat / 16) * 16 + c.toNat % 16))
                        = some c.toNat
                    congr 1
                    omega
                  rw [hesc]
                  simp [scanStr]
                  unfold scanEsc
                  simp [hv, Char.ofNat_toNat]
                · -- ordinary character, written verbatim
                  have hesc : escChar c = [c] := by
                    simp only [escChar, h1, h2, h3, h4, h5, h6, h7, h8, if_neg,
                      Bool.false_eq_true, if_false]
                  rw [hesc]
                  rw [Bool.not_eq_true] at h1 h2
                  rw [List.singleton_append, scanStr]
                  simp [h1, h2]

/-- Scanning a fully escaped body stops exactly at the closing quote. -/
theorem scanStr_escStr (cs : List Char) : ∀ acc r,
    scanStr acc (escStr cs ++ '"' :: r) = some (String.mk (acc.reverse ++ cs), r) := by
  induction cs with
  | nil =>
    intro acc r
    simp [escStr, scanStr]
  | cons c t ih =>
    intro acc r
    rw [escStr, List.append_assoc, scanStr_escChar, ih]
    simp

theorem jdelim_headDigit {r : List Char} (h : jdelim r = true) : headDigit r = false := by
  cases r with
  | nil => rfl
  | cons c t =>
    simp only [jdelim, Bool.or_eq_true] at h
    rcases h with (h | h) | h <;> rw [headDigit, eq_of_beq h] <;> decide

theorem wV_pos (j : Jval) : 1 ≤ wV j := by
  cases j <;> simp [wV]

theorem jrender_head (j : Jval) : ∃ c t, jrender j = c :: t ∧ c ≠ ']' := by
  cases j with
  | jnull => exact ⟨'n', ['u', 'l', 'l'], by simp [jrender], by decide⟩
  | jbool b => cases b with
    | true => exact ⟨'t', ['r', 'u', 'e'], by simp [jrender], by decide⟩
    | false => exact ⟨'f', ['a', 'l', 's', 'e'], by simp [jrender], by decide⟩
  | jnum n =>
    obtain ⟨c, t, h⟩ := List.exists_cons_of_ne_nil (natChars_ne_nil n)
    have hc : isDigitC c = true := natChars_all_digits n c (by rw [h]; exact List.mem_cons_self ..)
    exact ⟨c, t, by simp [jrender, h], isDigitC_ne_rbrack hc⟩
  | jstr s => exact ⟨'"', escStr s.data ++ ['"'], by simp [jrender], by decide⟩
  | jarr xs => cases xs with
    | nil => exact ⟨'[', [']'], by simp [jrender], by decide⟩
    | cons x xs => exact ⟨'[', jrenderItems x xs ++ [']'], by simp [jrender], by decide⟩
  | jobj fs =>
    match fs with
    | [] => exact ⟨'{', ['}'], by simp [jrender], by decide⟩
    | (k, v) :: fs => exact ⟨'{', jrenderFields k v fs ++ ['}'], by simp [jrender], by decide⟩

theorem jrenderItems_head (x : Jval) (xs : List Jval) :
    ∃ c t, jrenderItems x xs = c :: t ∧ c ≠ ']' := by
  obtain ⟨c, t, hr, hc⟩ := jrender_head x
  cases xs with
  | nil => exact ⟨c, t, by simp [jrenderItems, hr], hc⟩
  | cons y ys => exact ⟨c, t ++ ',' :: jrenderItems y ys, by simp [jrenderItems, hr], hc⟩

@[simp] theorem isDigitC_quot : isDigitC '"' = false := by decide

@[simp] theorem isDigitC_lbrack : isDigitC '[' = false := by decide

@[simp] theorem isDigitC_lbrace : isDigitC '{' = false := by decide

@[simp] theorem isDigitC_n : isDigitC 'n' = false := by decide

@[simp] theorem isDigitC_t : isDigitC 't' = false := by decide

@[simp] theorem isDigitC_f : isDigitC 'f' = false := by decide

/-- The parser inverts the renderer: values (with enough fuel, before a
    delimiter), nonempty array bodies, and nonempty object bodies. -/
theorem jparse_render_aux : ∀ fuel : Nat,
    (∀ j r, wV j ≤ fuel → jdelim r = true →
      jparseVal fuel (jrender j ++ r) = some (j, r)) ∧
    (∀ x xs r, wI (x :: xs) ≤ fuel →
      jparseItems fuel (jrenderItems x xs ++ ']' :: r) = some (x :: xs, r)) ∧
    (∀ k v fs r, wF ((k, v) :: fs) ≤ fuel →
      jparseFields fuel (jrenderFields k v fs ++ '}' :: r) = some ((k, v) :: fs, r)) := by
  intro fuel
  induction fuel using Nat.strong_induction_on with
  | _ fuel ih =>
    have hA : ∀ j r, wV j ≤ fuel → jdelim r = true →
        jparseVal fuel (jrender j ++ r) = some (j, r) := by
      intro j r hw hd
      cases fuel with
      | zero => exact absurd hw (by have := wV_pos j; omega)
      | succ f =>
        cases j with
        | jnull => simp [jrender, jparseVal, expectLit]
        | jbool b => cases b <;> simp [jrender, jparseVal, expectLit]
        | jnum n =>
          obtain ⟨c, t, hnat⟩ := List.exists_cons_of_ne_nil (natChars_ne_nil n)
          have hcd : isDigitC c = true :=
            natChars_all_digits n c (by rw [hnat]; exact List.mem_cons_self ..)
          have harg : jrender (.jnum n) ++ r = c :: (t ++ r) := by simp [jrender, hnat]
          have htake : takeDigitRun (c :: (t ++ r)) = (natChars n, r) := by
            rw [← List.cons_append, ← hnat]
            exact takeDigitRun_append _ _ (natChars_all_digits n) (jdelim_headDigit hd)
          rw [harg, jparseVal]
          simp [hcd, htake, digitsVal_natChars]
        | jstr s =>
          have harg : jrender (.jstr s) ++ r = '"' :: (escStr s.data ++ ('"' :: r)) := by
            simp [jrender]
          have hmk : String.mk s.data = s := rfl
          rw [harg, jparseVal]
          simp [scanStr_escStr, hmk]
        | jarr xs =>
          cases xs with
          | nil => simp [jrender, jparseVal, headIs]
          | cons x xs =>
            have hw2 : wI (x :: xs) ≤ f := by simp [wV] at hw; omega
            obtain ⟨c, t, hit, hc⟩ := jrenderItems_head x xs
            have harg : jrender (.jarr (x :: xs)) ++ r
                = '[' :: (jrenderItems x xs ++ (']' :: r)) := by simp [jrender]
            have hh : headIs ']' (jrenderItems x xs ++ (']' :: r)) = false := by
              rw [hit]
              simp [headIs, hc]
            have hitems := (ih f (by omega)).2.1 x xs r hw2
            rw [harg, jparseVal]
            simp [hh, hitems]
        | jobj fs =>
          match fs with
          | [] => simp [jrender, jparseVal, headIs]
          | (k, v) :: fs =>
            have hw2 : wF ((k, v) :: fs) ≤ f := by simp [wV] at hw; omega
            have harg : jrender (.jobj ((k, v) :: fs)) ++ r
                = '{' :: (jrenderFields k v fs ++ ('}' :: r)) := by simp [jrender]
            have hh : headIs '}' (jrenderFields k v fs ++ ('}' :: r)) = false := by
              cases fs with
              | nil => simp [jrenderFields, headIs]
              | cons g gs =>
                match g with
                | (k2, v2) => simp [jrenderFields, headIs]
            have hfields := (ih f (by omega)).2.2 k v fs r hw2
            rw [harg, jparseVal]
            simp [hh, hfields]
    have hB : ∀ x xs r, wI (x :: xs) ≤ fuel →
        jparseItems fuel (jrenderItems x xs ++ ']' :: r) = some (x :: xs, r) := by
      intro x xs r hw
      cases fuel with
      | zero =>
        exact absurd hw (by simp only [wI]; omega)
      | succ f =>
        cases xs with
        | nil =>
          have hwx : wV x ≤ f + 1 := by simp [wI] at hw; omega
          have harg : jrenderItems x [] ++ ']' :: r = jrender x ++ (']' :: r) := by
            simp [jrenderItems]
          rw [harg, jparseItems, hA x (']' :: r) hwx (by simp [jdelim])]
          simp [headIs]
        | cons y ys =>
          have hwx : wV x ≤ f + 1 := by have := wV_pos x; simp [wI] at hw; omega
          have hwt : wI (y :: ys) ≤ f := by
            have := wV_pos x
            simp [wI] at hw ⊢
            omega
          have harg : jrenderItems x (y :: ys) ++ ']' :: r
              = jrender x ++ (',' :: (jrenderItems y ys ++ ']' :: r)) := by
            simp [jrenderItems]
          rw [harg, jparseItems,
            hA x (',' :: (jrenderItems y ys ++ ']' :: r)) hwx (by simp [jdelim])]
          simp [headIs, (ih f (by omega)).2.1 y ys r hwt]
    have hC : ∀ k v fs r, wF ((k, v) :: fs) ≤ fuel →
        jparseFields fuel (jrenderFields k v fs ++ '}' :: r) = some ((k, v) :: fs, r) := by
      intro k v fs r hw
      cases fuel with
      | zero =>
        exact absurd hw (by simp only [wF]; omega)
      | succ f =>
        have hmk : String.mk k.data = k := rfl
        cases fs with
        | nil =>
          have hwv : wV v ≤ f + 1 := by simp [wF] at hw; omega
          have harg : jrenderFields k v [] ++ '}' :: r
              = '"' :: (escStr k.data ++ ('"' :: (':' :: (jrender v ++ ('}' :: r))))) := by
            simp [jrenderFields]
          rw [harg, jparseFields]
          simp [headIs, scanStr_escStr, hmk, hA v ('}' :: r) hwv (by simp [jdelim])]
        | cons g gs =>
          match g with
          | (k2, v2) =>
            have hwv : wV v ≤ f + 1 := by have := wV_pos v; simp [wF] at hw; omega
            have hwt : wF ((k2, v2) :: gs) ≤ f := by
              have := wV_pos v
              simp [wF] at hw ⊢
              omega
            have harg : jrenderFields k v ((k2, v2) :: gs) ++ '}' :: r
                = '"' :: (escStr k.data ++ ('"' :: (':' :: (jrender v
                    ++ (',' :: (jrenderFields k2 v2 gs ++ '}' :: r)))))) := by
              simp [jrenderFields]
            rw [harg, jparseFields]
            simp [headIs, scanStr_escStr, hmk,
              hA v (',' :: (jrenderFields k2 v2 gs ++ '}' :: r)) hwv (by simp [jdelim]),
              (ih f (by omega)).2.2 k2 v2 gs r hwt]
    exact ⟨hA, hB, hC⟩

mutual

theorem wV_le_len : (j : Jval) → wV j ≤ (jrender j).length
  | .jnull => by simp [wV, jrender]
  | .jbool b => by cases b <;> simp [wV, jrender]
  | .jnum n => by
    simp only [wV, jrender]
    exact List.length_pos.mpr (natChars_ne_nil n)
  | .jstr s => by simp [wV, jrender]
  | .jarr [] => by simp [wV, wI, jrender]
  | .jarr (x :: xs) => by
    have h := wI_le_len x xs
    simp only [wV, jrender, List.length_cons, List.length_append]
    omega
  | .jobj [] => by simp [wV, wF, jrender]
  | .jobj ((k, v) :: fs) => by
    have h := wF_le_len k v fs
    simp only [wV, jrender, List.length_cons, List.length_append]
    omega
termination_by j => sizeOf j

theorem wI_le_len : (x : Jval) → (xs : List Jval) →
    wI (x :: xs) ≤ (jrenderItems x xs).length + 1
  | x, [] => by
    have h := wV_le_len x
    simp only [wI, jrenderItems]
    omega
  | x, y :: ys => by
    have h1 := wV_le_len x
    have h2 := wI_le_len y ys
    simp only [wI, jrenderItems, List.length_append, List.length_cons] at h2 ⊢
    omega
termination_by x xs => 1 + sizeOf x + sizeOf xs

theorem wF_le_len : (k : String) → (v : Jval) → (fs : List (String × Jval)) →
    wF ((k, v) :: fs) ≤ (jrenderFields k v fs).length + 1
  | k, v, [] => by
    have h := wV_le_len v
    simp only [wF, jrenderFields, List.length_cons, List.length_append]
    omega
  | k, v, (k2, v2) :: gs => by
    have h1 := wV_le_len v
    have h2 := wF_le_len k2 v2 gs
    simp only [wF, jrenderFields, List.length_append, List.length_cons] at h2 ⊢
    omega
termination_by k v fs => 1 + sizeOf v + sizeOf fs

end


/-- **`json.loads` inverts `json.dumps`** on every document value. -/
theorem jparse_jrender (j : Jval) : jparse (String.mk (jrender j)) = some j := by
  have hw : wV j ≤ (jrender j).length + 1 := Nat.le_trans (wV_le_len j) (by omega)
  have h := (jparse_render_aux ((jrender j).length + 1)).1 j [] hw rfl
  rw [List.append_nil] at h
  have hdata : (String.mk (jrender j)).data = jrender j := rfl
  rw [jparse, hdata, h]

theorem decrypt_encrypt (s : String) : decryptData (encryptData s) = s := by
  show decryptData (String.mk ('E' :: 'N' :: 'C' :: '(' :: (s.data ++ [')']))) = s
  rw [decryptData]
  simp [List.getLast?_concat, List.dropLast_concat]

theorem hashUserId_ne_user_mapping (uid : String) : hashUserId uid ≠ "user_mapping" := by
  intro h
  have h2 := congrArg String.data h
  simp only [hashUserId] at h2
  exact absurd (List.head_eq_of_cons_eq h2) (by decide)

theorem hashUserId_ne_reminders (uid : String) : hashUserId uid ≠ "reminders" := by
  intro h
  have h2 := congrArg String.data h
  simp only [hashUserId] at h2
  exact absurd (List.head_eq_of_cons_eq h2) (by decide)

/-! ### The typed reader inverts the writer -/

theorem taskOfJval_taskToJval (t : TaskRec) : taskOfJval (taskToJval t) = some t := by
  obtain ⟨i, th, te, co, ca, cao, dl, rs, tk⟩ := t
  cases tk <;> cases cao <;> cases dl <;> rfl

theorem remOfJval_remToJval (r : ReminderRec) : remOfJval (remToJval r) = some r := by
  obtain ⟨i, mh, me, rt, ca, se, ms⟩ := r
  cases ms <;> rfl

theorem listMapO_map {α β : Type} (f : α → Option β) (g : β → α) (l : List β)
    (h : ∀ b ∈ l, f (g b) = some b) : listMapO f (l.map g) = some l := by
  induction l with
  | nil => rfl
  | cons b bs ih =>
    have hb := h b (by simp)
    have hbs := ih (fun x hx => h x (by simp [hx]))
    simp [listMapO, hb, hbs]

theorem lookupKey_append_skip {α : Type} (k : String) (xs ys : List (String × α))
    (h : ∀ p ∈ xs, (p.1 == k) = false) : lookupKey k (xs ++ ys) = lookupKey k ys := by
  induction xs with
  | nil => rfl
  | cons p ps ih =>
    have hp := h p (by simp)
    simp only [List.cons_append, lookupKey, hp, Bool.false_eq_true, if_false]
    exact ih (fun q hq => h q (by simp [hq]))

theorem docOfJval_docToJval (d : Doc)
    (hu : ∀ p ∈ d.users, p.1 ≠ "user_mapping" ∧ p.1 ≠ "reminders") :
    docOfJval (docToJval d) = some d := by
  obtain ⟨us, um, rem⟩ := d
  have husk : ∀ p ∈ us.map (fun p => (p.1, Jval.jarr (p.2.map taskToJval))),
      (!(p.1 == "user_mapping" || p.1 == "reminders")) = true := by
    intro q hq
    obtain ⟨p, hp, rfl⟩ := List.mem_map.mp hq
    obtain ⟨h1, h2⟩ := hu p hp
    simp [h1, h2]
  have hfilter : (us.map (fun p => (p.1, Jval.jarr (p.2.map taskToJval))) ++
      [("user_mapping", Jval.jobj (um.map (fun p => (p.1, Jval.jstr p.2)))),
       ("reminders", Jval.jobj (rem.map (fun p => (p.1, Jval.jarr (p.2.map remToJval)))))]).filter
        (fun p => !(p.1 == "user_mapping" || p.1 == "reminders"))
      = us.map (fun p => (p.1, Jval.jarr (p.2.map taskToJval))) := by
    rw [List.filter_append]
    rw [List.filter_eq_self.mpr husk]
    simp
  have husers : listMapO (fun p => (tasksOfJval p.2).map (fun ts => (p.1, ts)))
      (us.map (fun p => (p.1, Jval.jarr (p.2.map taskToJval)))) = some us := by
    apply listMapO_map
    intro p _
    simp [tasksOfJval, asArr, listMapO_map taskOfJval taskToJval p.2
      (fun b _ => taskOfJval_taskToJval b)]
  have hum : listMapO (fun p => (asStr p.2).map (fun s => (p.1, s)))
      (um.map (fun p => (p.1, Jval.jstr p.2))) = some um := by
    apply listMapO_map
    intro p _
    simp [asStr]
  have hrem : listMapO (fun p => (remsOfJval p.2).map (fun rs => (p.1, rs)))
      (rem.map (fun p => (p.1, Jval.jarr (p.2.map remToJval)))) = some rem := by
    apply listMapO_map
    intro p _
    simp [remsOfJval, asArr, listMapO_map remOfJval remToJval p.2
      (fun b _ => remOfJval_remToJval b)]
  have hskip : ∀ k : String, ∀ p ∈ us.map (fun p => (p.1, Jval.jarr (p.2.map taskToJval))),
      p.1 ≠ k → (p.1 == k) = false := by
    intro k p _ hne
    simpa using hne
  have hlkum : lookupKey "user_mapping"
      (us.map (fun p => (p.1, Jval.jarr (p.2.map taskToJval))) ++
        [("user_mapping", Jval.jobj (um.map (fun p => (p.1, Jval.jstr p.2)))),
         ("reminders", Jval.jobj (rem.map (fun p => (p.1, Jval.jarr (p.2.map remToJval)))))])
      = some (Jval.jobj (um.map (fun p => (p.1, Jval.jstr p.2)))) := by
    rw [lookupKey_append_skip]
    · rfl
    · intro p hp
      obtain ⟨q, hq, rfl⟩ := List.mem_map.mp hp
      exact hskip _ _ hp (hu q hq).1
  have hlkrem : lookupKey "reminders"
      (us.map (fun p => (p.1, Jval.jarr (p.2.map taskToJval))) ++
        [("user_mapping", Jval.jobj (um.map (fun p => (p.1, Jval.jstr p.2)))),
         ("reminders", Jval.jobj (rem.map (fun p => (p.1, Jval.jarr (p.2.map remToJval)))))])
      = some (Jval.jobj (rem.map (fun p => (p.1, Jval.jarr (p.2.map remToJval))))) := by
    rw [lookupKey_append_skip]
    · rfl
    · intro p hp
      obtain ⟨q, hq, rfl⟩ := List.mem_map.mp hp
      exact hskip _ _ hp (hu q hq).2
  simp only [docOfJval, docToJval, asObj, Option.bind_eq_bind, Option.some_bind,
    hfilter, husers, hlkum, hlkrem, hum, hrem]
  rfl

theorem dropWhile_ne_nil_of_exists {l : List Char} (c : Char) (hc : c ∈ l)
    (hw : isWsC c = false) : l.dropWhile isWsC ≠ [] := by
  induction l with
  | nil => cases hc
  | cons a as ih =>
    by_cases ha : isWsC a
    · have : a ≠ c := fun he => by rw [he] at ha; rw [hw] at ha; cases ha
      rcases List.mem_cons.mp hc with he | hm
      · exact absurd he.symm this
      · simpa [List.dropWhile, ha] using ih hm
    · simp [List.dropWhile, ha]

/-- An encrypted blob never strips to the empty string (`_load_data`'s
    `encrypted_content.strip()` test passes). -/
theorem pyStrip_encrypt_ne_nil (s : String) :
    (pyStrip (encryptData s).data).isEmpty = false := by
  show (pyStrip ('E' :: 'N' :: 'C' :: '(' :: (s.data ++ [')']))).isEmpty = false
  rw [pyStrip]
  have h1 : List.dropWhile isWsC ('E' :: 'N' :: 'C' :: '(' :: (s.data ++ [')']))
      = 'E' :: 'N' :: 'C' :: '(' :: (s.data ++ [')']) := by
    rw [List.dropWhile_cons_of_neg (by decide)]
  rw [h1]
  have h2 : List.dropWhile isWsC
      (('E' :: 'N' :: 'C' :: '(' :: (s.data ++ [')'])).reverse) ≠ [] := by
    apply dropWhile_ne_nil_of_exists 'E'
    · simp
    · decide
  rw [List.isEmpty_eq_false]
  intro hrev
  exact h2 (by simpa using congrArg List.reverse hrev)

/-- **Persistence round-trip**: a forced save followed by a fresh load
    reproduces the document, whenever the document's user keys avoid the two
    reserved names (as every reachable document's do — they are `hashUserId`
    images). -/
theorem loadDoc_forceSave (t : Nat) (db : DB)
    (hu : ∀ p ∈ db.doc.users, p.1 ≠ "user_mapping" ∧ p.1 ≠ "reminders") :
    loadDoc (forceSave t db).file = some db.doc := by
  have hfile : (forceSave t db).file
      = some (encryptData (String.mk (jrender (docToJval db.doc)))) := by
    simp [forceSave, saveDataF]
  rw [hfile, loadDoc]
  rw [if_neg (by rw [pyStrip_encrypt_ne_nil]; simp)]
  rw [decrypt_encrypt, jparse_jrender]
  exact docOfJval_docToJval db.doc hu

/-! ### Association-list lemmas -/

theorem lookupKey_mem {α : Type} {k : String} {l : List (String × α)} {v : α}
    (h : lookupKey k l = some v) : (k, v) ∈ l := by
  induction l with
  | nil => cases h
  | cons p ps ih =>
    rw [lookupKey] at h
    by_cases hk : p.1 == k
    · rw [if_pos hk] at h
      cases h
      have hp : (k, p.2) = p := by
        rw [← eq_of_beq hk]
      rw [hp]
      exact List.mem_cons_self ..
    · rw [if_neg hk] at h
      exact List.mem_cons_of_mem _ (ih h)

theorem mem_setKey {α : Type} {k : String} {v : α} {l : List (String × α)} {p : String × α}
    (h : p ∈ setKey k v l) : p = (k, v) ∨ p ∈ l := by
  induction l with
  | nil => simpa [setKey] using h
  | cons q qs ih =>
    rw [setKey] at h
    by_cases hk : q.1 == k
    · rw [if_pos hk] at h
      rcases List.mem_cons.mp h with he | hm
      · exact Or.inl he
      · exact Or.inr (List.mem_cons_of_mem _ hm)
    · rw [if_neg hk] at h
      rcases List.mem_cons.mp h with he | hm
      · exact Or.inr (he ▸ List.mem_cons_self ..)
      · rcases ih hm with h1 | h2
        · exact Or.inl h1
        · exact Or.inr (List.mem_cons_of_mem _ h2)

theorem keys_setKey {α : Type} (k : String) (v : α) (l : List (String × α)) :
    (setKey k v l).map Prod.fst = l.map Prod.fst ∨
    (setKey k v l).map Prod.fst = l.map Prod.fst ++ [k] ∧ k ∉ l.map Prod.fst := by
  induction l with
  | nil => simp [setKey]
  | cons q qs ih =>
    rw [setKey]
    by_cases hk : q.1 == k
    · left
      simp [eq_of_beq hk]
    · have hk2 : ¬(q.1 = k) := by simpa using hk
      rcases ih with h1 | ⟨h2, h3⟩
      · left
        simp [hk2, h1]
      · right
        constructor
        · simp [hk2, h2]
        · simp only [List.map_cons, List.mem_cons]
          rintro (he | hm)
          · exact absurd (beq_iff_eq.mpr he.symm) (by simpa using hk)
          · exact h3 hm

theorem nodup_keys_setKey {α : Type} {k : String} {v : α} {l : List (String × α)}
    (h : (l.map Prod.fst).Nodup) : ((setKey k v l).map Prod.fst).Nodup := by
  rcases keys_setKey k v l with h1 | ⟨h2, h3⟩
  · rw [h1]; exact h
  · rw [h2]
    simp [List.nodup_append, h, h3]

theorem mem_removeKey {α : Type} {k : String} {l : List (String × α)} {p : String × α}
    (h : p ∈ removeKey k l) : p ∈ l := by
  induction l with
  | nil => simpa [removeKey] using h
  | cons q qs ih =>
    rw [removeKey] at h
    by_cases hk : q.1 == k
    · rw [if_pos hk] at h
      exact List.mem_cons_of_mem _ h
    · rw [if_neg hk] at h
      rcases List.mem_cons.mp h with he | hm
      · exact he ▸ List.mem_cons_self ..
      · exact List.mem_cons_of_mem _ (ih hm)

theorem removeKey_sublist {α : Type} (k : String) (l : List (String × α)) :
    (removeKey k l).Sublist l := by
  induction l with
  | nil => simp [removeKey]
  | cons q qs ih =>
    rw [removeKey]
    by_cases hk : q.1 == k
    · rw [if_pos hk]
      exact List.sublist_cons_self q qs
    · rw [if_neg hk]
      exact ih.cons₂ q

theorem nodup_keys_removeKey {α : Type} {k : String} {l : List (String × α)}
    (h : (l.map Prod.fst).Nodup) : ((removeKey k l).map Prod.fst).Nodup :=
  ((removeKey_sublist k l).map Prod.fst).nodup h

theorem lookupKey_removeKey_self {α : Type} {k : String} {l : List (String × α)}
    (h : (l.map Prod.fst).Nodup) : lookupKey k (removeKey k l) = none := by
  induction l with
  | nil => rfl
  | cons q qs ih =>
    rw [removeKey]
    simp only [List.map_cons, List.nodup_cons] at h
    by_cases hk : q.1 == k
    · rw [if_pos hk]
      -- q.1 = k is not a key of qs, so the lookup misses
      rw [← eq_of_beq hk]
      clear ih
      induction qs with
      | nil => rfl
      | cons w ws ihw =>
        rw [lookupKey]
        have hw : (w.1 == q.1) = false := by
          have : w.1 ≠ q.1 := by
            intro he
            exact h.1 (by simp [← he])
          simpa using fun hx => this (by rw [hx])
        rw [if_neg (by simp [hw])]
        exact ihw ⟨fun hm => h.1 (by simp [hm]), h.2.sublist (by simp)⟩
    · rw [if_neg hk, lookupKey, if_neg hk]
      exact ih h.2

theorem lookupKey_setKey_self {α : Type} (k : String) (v : α) (l : List (String × α)) :
    lookupKey k (setKey k v l) = some v := by
  induction l with
  | nil => simp [setKey, lookupKey]
  | cons q qs ih =>
    rw [setKey]
    by_cases hk : q.1 == k
    · rw [if_pos hk, lookupKey, if_pos (by simp)]
    · rw [if_neg hk, lookupKey, if_neg hk]
      exact ih

theorem lookupKey_setKey_other {α : Type} {k k' : String} (hne : k' ≠ k) (v : α)
    (l : List (String × α)) : lookupKey k' (setKey k v l) = lookupKey k' l := by
  induction l with
  | nil =>
    simp only [setKey, lookupKey]
    rw [if_neg (by simpa using fun h => hne (eq_of_beq h).symm)]
  | cons q qs ih =>
    rw [setKey]
    by_cases hk : q.1 == k
    · rw [if_pos hk, lookupKey, lookupKey]
      rw [if_neg (by simpa using fun h => hne (eq_of_beq h).symm)]
      have hq : (q.1 == k') = false := by
        rw [eq_of_beq hk]
        exact beq_eq_false_iff_ne.mpr (fun h => hne h.symm)
      rw [if_neg (by simp [hq])]
    · rw [if_neg hk, lookupKey, lookupKey]
      by_cases hq : q.1 == k'
      · rw [if_pos hq, if_pos hq]
      · rw [if_neg hq, if_neg hq]
        exact ih

theorem lookupKey_removeKey_other {α : Type} {k k' : String} (hne : k' ≠ k)
    (l : List (String × α)) : lookupKey k' (removeKey k l) = lookupKey k' l := by
  induction l with
  | nil => rfl
  | cons q qs ih =>
    rw [removeKey]
    by_cases hk : q.1 == k
    · rw [if_pos hk, lookupKey]
      rw [if_neg (by rw [eq_of_beq hk]; simpa using fun h => hne (eq_of_beq h).symm)]
    · rw [if_neg hk, lookupKey, lookupKey]
      by_cases hq : q.1 == k'
      · rw [if_pos hq, if_pos hq]
      · rw [if_neg hq, if_neg hq]
        exact ih

/-! ### Renumbering and in-place-mutation lemmas -/

theorem renumberTasks_length (i : Nat) (ts : List TaskRec) :
    (renumberTasks i ts).length = ts.length := by
  induction ts generalizing i with
  | nil => rfl
  | cons tk ts ih => simp [renumberTasks, ih]

theorem renumberTasks_ids (i : Nat) (ts : List TaskRec) :
    (renumberTasks i ts).map (fun tk => tk.id) = List.range' i ts.length := by
  induction ts generalizing i with
  | nil => rfl
  | cons tk ts ih => simp [renumberTasks, ih, List.range'_succ]

theorem renumberRems_length (i : Nat) (rs : List ReminderRec) :
    (renumberRems i rs).length = rs.length := by
  induction rs generalizing i with
  | nil => rfl
  | cons r rs ih => simp [renumberRems, ih]

theorem renumberRems_ids (i : Nat) (rs : List ReminderRec) :
    (renumberRems i rs).map (fun r => r.id) = List.range' i rs.length := by
  induction rs generalizing i with
  | nil => rfl
  | cons r rs ih => simp [renumberRems, ih, List.range'_succ]

theorem modifyFirst_length {α : Type} (p : α → Bool) (f : α → α) (l : List α) :
    (modifyFirst p f l).length = l.length := by
  induction l with
  | nil => rfl
  | cons a as ih =>
    rw [modifyFirst]
    by_cases hp : p a
    · rw [if_pos hp]; rfl
    · rw [if_neg hp]
      simp [ih]

theorem modifyFirst_map {α β : Type} (p : α → Bool) (f : α → α) (g : α → β)
    (hg : ∀ a, g (f a) = g a) (l : List α) :
    (modifyFirst p f l).map g = l.map g := by
  induction l with
  | nil => rfl
  | cons a as ih =>
    rw [modifyFirst]
    by_cases hp : p a
    · rw [if_pos hp]
      simp [hg]
    · rw [if_neg hp]
      simp [ih]

theorem map_comp_id_preserving {α β : Type} (f : α → α) (g : α → β)
    (hg : ∀ a, g (f a) = g a) (l : List α) : (l.map f).map g = l.map g := by
  rw [List.map_map]
  exact List.map_congr_left (fun a _ => hg a)

/-- A dense 1..N id list has pairwise-distinct ids. -/
theorem dense_nodup {ids : List Nat} {n : Nat} (h : ids = List.range' 1 n) :
    ids.Nodup := by
  rw [h]
  exact List.nodup_range' ..

/-! ### Invariant preservation -/

theorem doc_saveData (t : Nat) (db : DB) : (saveData t db).doc = db.doc := by
  unfold saveData saveDataF
  split <;> rfl

theorem doc_forceSave (t : Nat) (db : DB) : (forceSave t db).doc = db.doc := by
  unfold forceSave saveDataF
  split <;> rfl

/-- `StoreInv` only inspects the document. -/
theorem storeInv_doc {db db' : DB} (h : db'.doc = db.doc) (hi : StoreInv db) :
    StoreInv db' := by
  unfold StoreInv at *
  rw [h]
  exact hi

theorem storeInv_saveData {t : Nat} {db : DB} (h : StoreInv db) :
    StoreInv (saveData t db) := storeInv_doc (doc_saveData t db) h

/-- Facts about one user's task list, as `userTasks` reads it. -/
theorem userTasks_facts {db : DB} (h : StoreInv db) (k : String) :
    (userTasks db.doc k).length ≤ 50 ∧
      (userTasks db.doc k).map (fun tk => tk.id)
        = List.range' 1 (userTasks db.doc k).length := by
  unfold userTasks
  cases hlk : lookupKey k db.doc.users with
  | none => simp
  | some ts =>
    have := h.1 (k, ts) (lookupKey_mem hlk)
    simpa using ⟨this.1, this.2.1⟩

/-- Facts about one user's reminder list. -/
theorem userRems_facts {db : DB} (h : StoreInv db) (k : String) :
    ((lookupKey k db.doc.reminders).getD []).length ≤ 20 ∧
      ((lookupKey k db.doc.reminders).getD []).map (fun r => r.id)
        = List.range' 1 ((lookupKey k db.doc.reminders).getD []).length := by
  cases hlk : lookupKey k db.doc.reminders with
  | none => simp
  | some rs =>
    have := h.2.1 (k, rs) (lookupKey_mem hlk)
    simpa using ⟨this.1, this.2.1⟩

theorem storeInv_setUsers {db : DB} (h : StoreInv db) (k : String) (ts : List TaskRec)
    (hk1 : k ≠ "user_mapping") (hk2 : k ≠ "reminders") (hlen : ts.length ≤ 50)
    (hids : ts.map (fun tk => tk.id) = List.range' 1 ts.length) :
    StoreInv { db with doc := { db.doc with users := setKey k ts db.doc.users } } := by
  obtain ⟨hu, hr, hnu, hnr, hnm⟩ := h
  refine ⟨?_, hr, ?_, hnr, hnm⟩
  · intro p hp
    rcases mem_setKey hp with he | hm
    · rw [he]
      exact ⟨hlen, hids, hk1, hk2⟩
    · exact hu p hm
  · exact nodup_keys_setKey hnu

theorem storeInv_setRems {db : DB} (h : StoreInv db) (k : String) (rs : List ReminderRec)
    (hk1 : k ≠ "user_mapping") (hlen : rs.length ≤ 20)
    (hids : rs.map (fun r => r.id) = List.range' 1 rs.length) :
    StoreInv { db with doc := { db.doc with reminders := setKey k rs db.doc.reminders } } := by
  obtain ⟨hu, hr, hnu, hnr, hnm⟩ := h
  refine ⟨hu, ?_, hnu, ?_, hnm⟩
  · intro p hp
    rcases mem_setKey hp with he | hm
    · rw [he]
      exact ⟨hlen, hids, hk1⟩
    · exact hr p hm
  · exact nodup_keys_setKey hnr

theorem storeInv_setMapping {db : DB} (h : StoreInv db) (k v : String) :
    StoreInv { db with doc :=
      { db.doc with user_mapping := setKey k v db.doc.user_mapping } } := by
  obtain ⟨hu, hr, hnu, hnr, hnm⟩ := h
  exact ⟨hu, hr, hnu, hnr, nodup_keys_setKey hnm⟩

theorem keys_map_entrywise {α : Type} (g : (String × α) → (String × α))
    (hg : ∀ p, (g p).1 = p.1) (l : List (String × α)) :
    (l.map g).map Prod.fst = l.map Prod.fst := by
  rw [List.map_map]
  exact List.map_congr_left (fun p _ => hg p)

theorem storeInv_mapUsers {db : DB} (h : StoreInv db) (cond : TaskRec → Bool)
    (g : TaskRec → TaskRec) (hg : ∀ tk, (g tk).id = tk.id) :
    StoreInv { db with doc := { db.doc with users := db.doc.users.map (fun p => (p.1, p.2.map (fun tk => if cond tk then g tk else tk))) } } := by
  obtain ⟨hu, hr, hnu, hnr, hnm⟩ := h
  refine ⟨?_, hr, ?_, hnr, hnm⟩
  · intro p hp
    obtain ⟨q, hq, rfl⟩ := List.mem_map.mp hp
    obtain ⟨h1, h2, h3, h4⟩ := hu q hq
    refine ⟨by simpa using h1, ?_, h3, h4⟩
    have hpt : ∀ tk : TaskRec, ((fun tk => if cond tk then g tk else tk) tk).id = tk.id := by
      intro tk
      by_cases hc : cond tk
      · simp [hc, hg]
      · simp [hc]
    calc (q.2.map (fun tk => if cond tk then g tk else tk)).map (fun tk => tk.id)
        = q.2.map (fun tk => tk.id) :=
          map_comp_id_preserving _ _ hpt q.2
      _ = List.range' 1 (q.2.map (fun tk => if cond tk then g tk else tk)).length := by
          simpa using h2
  · have hk := keys_map_entrywise
      (fun p => (p.1, p.2.map (fun tk => if cond tk then g tk else tk)))
      (fun p => rfl) db.doc.users
    rw [hk]
    exact hnu

theorem storeInv_mapRems {db : DB} (h : StoreInv db) (cond : ReminderRec → Bool)
    (g : ReminderRec → ReminderRec) (hg : ∀ r, (g r).id = r.id)
    (hs : ∀ r, (g r).sent = r.sent) :
    StoreInv { db with doc := { db.doc with reminders := db.doc.reminders.map (fun p => if p.1 == "user_mapping" then p else (p.1, p.2.map (fun r => if cond r then g r else r))) } } := by
  obtain ⟨hu, hr, hnu, hnr, hnm⟩ := h
  refine ⟨hu, ?_, hnu, ?_, hnm⟩
  · intro p hp
    obtain ⟨q, hq, rfl⟩ := List.mem_map.mp hp
    obtain ⟨h1, h2, h3⟩ := hr q hq
    have hum : (q.1 == "user_mapping") = false := by simpa using h3
    rw [hum]
    simp only [Bool.false_eq_true, if_false]
    refine ⟨by simpa using h1, ?_, h3⟩
    have hpt : ∀ r : ReminderRec, ((fun r => if cond r then g r else r) r).id = r.id := by
      intro r
      by_cases hc : cond r
      · simp [hc, hg]
      · simp [hc]
    calc (q.2.map (fun r => if cond r then g r else r)).map (fun r => r.id)
        = q.2.map (fun r => r.id) := map_comp_id_preserving _ _ hpt q.2
      _ = List.range' 1 (q.2.map (fun r => if cond r then g r else r)).length := by
          simpa using h2
  · have hk := keys_map_entrywise
      (fun p => if p.1 == "user_mapping" then p
        else (p.1, p.2.map (fun r => if cond r then g r else r)))
      (fun p => by by_cases hc : p.1 == "user_mapping" <;> simp [hc]) db.doc.reminders
    rw [hk]
    exact hnr

theorem storeInv_addTask (t : Nat) (uid task : String) (dl : Option String) (db : DB)
    (h : StoreInv db) : StoreInv (addTask t uid task dl db).2 := by
  have h1 : StoreInv { db with doc := { db.doc with user_mapping := setKey (hashUserId uid) (encryptData uid) db.doc.user_mapping } } :=
    storeInv_setMapping h _ _
  unfold addTask
  simp only
  split
  · exact h1
  · rename_i hlen
    apply storeInv_saveData
    have hfacts := userTasks_facts h1 (hashUserId uid)
    refine @storeInv_setUsers _ h1 (hashUserId uid) _
      (hashUserId_ne_user_mapping uid) (hashUserId_ne_reminders uid) ?_ ?_
    · rw [List.length_append]
      simp only [List.length_cons, List.length_nil]
      omega
    · rw [List.map_append, List.length_append]
      simp only [List.map_cons, List.map_nil, List.length_cons, List.length_nil]
      rw [List.range'_concat, hfacts.2]
      congr 1
      simp
      omega

theorem storeInv_getTasks (uid : String) (db : DB) (h : StoreInv db) :
    StoreInv (getTasks uid db).2 := by
  unfold getTasks
  simp only
  split
  · rename_i ts hts
    have hfacts := userTasks_facts h (hashUserId uid)
    refine @storeInv_setUsers _ h (hashUserId uid) _
      (hashUserId_ne_user_mapping uid) (hashUserId_ne_reminders uid) ?_ ?_
    · simpa using hfacts.1
    · rw [map_comp_id_preserving decorateTask (fun tk => tk.id) (fun a => rfl)]
      simpa using hfacts.2
  · exact h

theorem storeInv_getTask (uid : String) (tid : Nat) (db : DB) (h : StoreInv db) :
    StoreInv (getTask uid tid db).2 := by
  unfold getTask
  simp only
  split
  · exact h
  · have hfacts := userTasks_facts h (hashUserId uid)
    refine @storeInv_setUsers _ h (hashUserId uid) _
      (hashUserId_ne_user_mapping uid) (hashUserId_ne_reminders uid) ?_ ?_
    · rw [modifyFirst_length]
      exact hfacts.1
    · rw [modifyFirst_map]
      · rw [modifyFirst_length]
        exact hfacts.2
      · intro a
        rfl

theorem storeInv_completeTask (t : Nat) (uid : String) (tid : Nat) (db : DB)
    (h : StoreInv db) : StoreInv (completeTask t uid tid db).2 := by
  unfold completeTask
  simp only
  split
  · apply storeInv_saveData
    have hfacts := userTasks_facts h (hashUserId uid)
    refine @storeInv_setUsers _ h (hashUserId uid) _
      (hashUserId_ne_user_mapping uid) (hashUserId_ne_reminders uid) ?_ ?_
    · rw [modifyFirst_length]
      exact hfacts.1
    · rw [modifyFirst_map]
      · rw [modifyFirst_length]
        exact hfacts.2
      · intro a
        rfl
  · exact h

theorem storeInv_uncompleteTask (t : Nat) (uid : String) (tid : Nat) (db : DB)
    (h : StoreInv db) : StoreInv (uncompleteTask t uid tid db).2 := by
  unfold uncompleteTask
  simp only
  split
  · apply storeInv_saveData
    have hfacts := userTasks_facts h (hashUserId uid)
    refine @storeInv_setUsers _ h (hashUserId uid) _
      (hashUserId_ne_user_mapping uid) (hashUserId_ne_reminders uid) ?_ ?_
    · rw [modifyFirst_length]
      exact hfacts.1
    · rw [modifyFirst_map]
      · rw [modifyFirst_length]
        exact hfacts.2
      · intro a
        rfl
  · exact h

theorem storeInv_removeTask (t : Nat) (uid : String) (tid : Nat) (db : DB)
    (h : StoreInv db) : StoreInv (removeTask t uid tid db).2 := by
  unfold removeTask
  simp only
  split
  · exact h
  · apply storeInv_saveData
    have hfacts := userTasks_facts h (hashUserId uid)
    refine @storeInv_setUsers _ h (hashUserId uid) _
      (hashUserId_ne_user_mapping uid) (hashUserId_ne_reminders uid) ?_ ?_
    · rw [renumberTasks_length]
      exact Nat.le_trans (List.length_filter_le _ _) hfacts.1
    · rw [renumberTasks_ids, renumberTasks_length]

theorem storeInv_clearCompleted (t : Nat) (uid : String) (db : DB)
    (h : StoreInv db) : StoreInv (clearCompletedTasks t uid db).2 := by
  unfold clearCompletedTasks
  simp only
  apply storeInv_saveData
  have hfacts := userTasks_facts h (hashUserId uid)
  refine @storeInv_setUsers _ h (hashUserId uid) _
    (hashUserId_ne_user_mapping uid) (hashUserId_ne_reminders uid) ?_ ?_
  · rw [renumberTasks_length]
    exact Nat.le_trans (List.length_filter_le _ _) hfacts.1
  · rw [renumberTasks_ids, renumberTasks_length]

theorem storeInv_clearAll (t : Nat) (uid : String) (db : DB)
    (h : StoreInv db) : StoreInv (clearAllTasks t uid db).2 := by
  unfold clearAllTasks
  simp only
  apply storeInv_saveData
  obtain ⟨hu, hr, hnu, hnr, hnm⟩ := h
  exact ⟨fun p hp => hu p (mem_removeKey hp), hr,
    nodup_keys_removeKey hnu, hnr, nodup_keys_removeKey hnm⟩

theorem storeInv_addReminder (t : Nat) (uid msg ts : String) (db : DB)
    (h : StoreInv db) : StoreInv (addReminder t uid msg ts db).2 := by
  have h1 : StoreInv { db with doc := { db.doc with user_mapping := setKey (hashUserId uid) (encryptData uid) db.doc.user_mapping } } :=
    storeInv_setMapping h _ _
  unfold addReminder
  simp only
  cases hlk : lookupKey (hashUserId uid) db.doc.reminders with
  | some rs0 =>
    have hmem := h.2.1 (hashUserId uid, rs0) (lookupKey_mem hlk)
    simp only [hlk, Option.getD_some]
    split
    · exact h1
    · rename_i hlen
      dsimp only
      apply storeInv_saveData
      refine @storeInv_setRems _ h1 (hashUserId uid) _
        (hashUserId_ne_user_mapping uid) ?_ ?_
      · rw [List.length_append]
        simp only [List.length_cons, List.length_nil, MAX_REMINDERS_PER_USER] at *
        omega
      · rw [List.map_append, List.length_append]
        simp only [List.map_cons, List.map_nil, List.length_cons, List.length_nil]
        rw [List.range'_concat, hmem.2.1]
        congr 1
        simp
        omega
  | none =>
    have h2 : StoreInv { db with doc := { db.doc with user_mapping := setKey (hashUserId uid) (encryptData uid) db.doc.user_mapping, reminders := setKey (hashUserId uid) [] db.doc.reminders } } :=
      @storeInv_setRems _ h1 (hashUserId uid) []
        (hashUserId_ne_user_mapping uid) (by simp) (by simp)
    simp only [hlk, lookupKey_setKey_self, Option.getD_some]
    split
    · exact h2
    · rename_i hlen
      dsimp only
      apply storeInv_saveData
      refine @storeInv_setRems _ h2 (hashUserId uid) _
        (hashUserId_ne_user_mapping uid) ?_ ?_
      · simp [MAX_REMINDERS_PER_USER]
      · simp

theorem storeInv_getReminders (uid : String) (db : DB) (h : StoreInv db) :
    StoreInv (getReminders uid db).2 := by
  unfold getReminders
  simp only
  split
  · have hfacts := userRems_facts h (hashUserId uid)
    refine @storeInv_setRems _ h (hashUserId uid) _
      (hashUserId_ne_user_mapping uid) ?_ ?_
    · simpa using hfacts.1
    · rw [map_comp_id_preserving decorateRem (fun r => r.id) (fun a => rfl)]
      simpa using hfacts.2
  · exact h

theorem storeInv_deleteReminder (t : Nat) (uid : String) (rid : Nat) (db : DB)
    (h : StoreInv db) : StoreInv (deleteReminder t uid rid db).2 := by
  unfold deleteReminder
  simp only
  split
  · exact h
  · apply storeInv_saveData
    have hfacts := userRems_facts h (hashUserId uid)
    refine @storeInv_setRems _ h (hashUserId uid) _
      (hashUserId_ne_user_mapping uid) ?_ ?_
    · rw [renumberRems_length]
      exact Nat.le_trans (List.length_filter_le _ _) hfacts.1
    · rw [renumberRems_ids, renumberRems_length]

theorem storeInv_clearReminders (t : Nat) (uid : String) (db : DB)
    (h : StoreInv db) : StoreInv (clearReminders t uid db).2 := by
  unfold clearReminders
  simp only
  apply storeInv_saveData
  obtain ⟨hu, hr, hnu, hnr, hnm⟩ := h
  exact ⟨hu, fun p hp => hr p (mem_removeKey hp), hnu, nodup_keys_removeKey hnr, hnm⟩

theorem storeInv_getDue (t : Nat) (db : DB) (h : StoreInv db) :
    StoreInv (getDueReminders t db).2 := by
  unfold getDueReminders
  simp only
  exact storeInv_mapRems h (isDueRem t) decorateRem (fun r => rfl) (fun r => rfl)

theorem storeInv_getUpcoming (t hours : Nat) (db : DB) (h : StoreInv db) :
    StoreInv (getUpcomingDeadlines t db hours).2 := by
  unfold getUpcomingDeadlines
  simp only
  exact storeInv_mapUsers h (isUpcoming t hours) decorateTask (fun tk => rfl)

theorem storeInv_markRemSent (t : Nat) (hk : String) (rid : Nat) (db : DB)
    (h : StoreInv db) : StoreInv (markReminderSent t hk rid db).2 := by
  unfold markReminderSent
  simp only
  split
  · rename_i hany
    apply storeInv_saveData
    have hfacts := userRems_facts h hk
    have hne : hk ≠ "user_mapping" := by
      intro he
      subst he
      -- a reminder entry under the literal key would violate the invariant
      cases hlk : lookupKey "user_mapping" db.doc.reminders with
      | none =>
        rw [hlk] at hany
        simp at hany
      | some rs =>
        exact absurd rfl (h.2.1 ("user_mapping", rs) (lookupKey_mem hlk)).2.2
    refine @storeInv_setRems _ h hk _ hne ?_ ?_
    · rw [modifyFirst_length]
      exact hfacts.1
    · rw [modifyFirst_map]
      · rw [modifyFirst_length]
        exact hfacts.2
      · intro a
        rfl
  · exact h

theorem storeInv_markDeadlineSent (t : Nat) (hk : String) (tid : Nat) (db : DB)
    (h : StoreInv db) : StoreInv (markDeadlineReminderSent t hk tid db).2 := by
  unfold markDeadlineReminderSent
  simp only
  split
  · exact h
  · rename_i ts hlk
    split
    · apply storeInv_saveData
      have hmem := h.1 (hk, ts) (lookupKey_mem hlk)
      refine @storeInv_setUsers _ h hk _ hmem.2.2.1 hmem.2.2.2 ?_ ?_
      · rw [modifyFirst_length]
        exact hmem.1
      · rw [modifyFirst_map]
        · rw [modifyFirst_length]
          exact hmem.2.1
        · intro a
          rfl
    · exact h

/-- Every repository operation preserves the invariant. -/
theorem storeInv_applyOp (op : Op) (db : DB) (h : StoreInv db) :
    StoreInv (applyOp op db) := by
  cases op with
  | opAddTask t uid task dl => exact storeInv_addTask t uid task dl db h
  | opGetTasks uid => exact storeInv_getTasks uid db h
  | opGetTask uid tid => exact storeInv_getTask uid tid db h
  | opCompleteTask t uid tid => exact storeInv_completeTask t uid tid db h
  | opUncompleteTask t uid tid => exact storeInv_uncompleteTask t uid tid db h
  | opRemoveTask t uid tid => exact storeInv_removeTask t uid tid db h
  | opClearCompleted t uid => exact storeInv_clearCompleted t uid db h
  | opClearAll t uid => exact storeInv_clearAll t uid db h
  | opAddReminder t uid msg ts => exact storeInv_addReminder t uid msg ts db h
  | opGetReminders uid => exact storeInv_getReminders uid db h
  | opDeleteReminder t uid rid => exact storeInv_deleteReminder t uid rid db h
  | opClearReminders t uid => exact storeInv_clearReminders t uid db h
  | opGetDue t => exact storeInv_getDue t db h
  | opGetUpcoming t hours => exact storeInv_getUpcoming t hours db h
  | opMarkRemSent t hk rid => exact storeInv_markRemSent t hk rid db h
  | opMarkDeadlineSent t hk tid => exact storeInv_markDeadlineSent t hk tid db h
  | opForceSave t => exact storeInv_doc (doc_forceSave t db) h

/-- The invariant holds after any operation sequence from an invariant
    state. -/
theorem storeInv_runOps (ops : List Op) (db : DB) (h : StoreInv db) :
    StoreInv (runOps ops db) := by
  induction ops generalizing db with
  | nil => exact h
  | cons op ops ih => exact ih _ (storeInv_applyOp op db h)

/-- A fresh store satisfies the invariant. -/
theorem storeInv_initDB (t0 : Nat) : StoreInv (initDB t0) := by
  refine ⟨?_, ?_, ?_, ?_, ?_⟩ <;> simp [initDB, emptyDoc]

/-! ## Scanner characterizations -/

theorem mem_flatMapP {α β : Type} (f : α → List β) (l : List α) (b : β) :
    b ∈ flatMapP f l ↔ ∃ a ∈ l, b ∈ f a := by
  induction l with
  | nil => simp [flatMapP]
  | cons x xs ih =>
    simp only [flatMapP, List.mem_append, ih, List.mem_cons]
    constructor
    · rintro (hb | ⟨a, ha, hb⟩)
      · exact ⟨x, Or.inl rfl, hb⟩
      · exact ⟨a, Or.inr ha, hb⟩
    · rintro ⟨a, ha | ha, hb⟩
      · exact Or.inl (ha ▸ hb)
      · exact Or.inr ⟨a, ha, hb⟩

theorem isDueRem_iff (t : Nat) (r : ReminderRec) :
    isDueRem t r = true ↔
      r.sent = false ∧ ∃ ft, fromIso r.reminder_time = some ft ∧ ft ≤ t := by
  unfold isDueRem
  cases hf : fromIso r.reminder_time with
  | none => simp [hf]
  | some ft => simp [hf]

/-- Membership characterization of `get_due_reminders()`'s result. -/
theorem getDue_mem_iff (t : Nat) (db : DB) (d : DueRec) :
    d ∈ (getDueReminders t db).1 ↔
      ∃ p ∈ db.doc.reminders, p.1 ≠ "user_mapping" ∧
        ∃ r ∈ p.2, r.sent = false ∧ (∃ ft, fromIso r.reminder_time = some ft ∧ ft ≤ t) ∧
          d = ⟨resolveUser db.doc p.1, p.1, decorateRem r⟩ := by
  unfold getDueReminders
  simp only
  rw [mem_flatMapP]
  constructor
  · rintro ⟨p, hp, hd⟩
    by_cases hum : p.1 == "user_mapping"
    · rw [if_pos hum] at hd
      cases hd
    · rw [if_neg hum] at hd
      split at hd
      · cases hd
      · obtain ⟨r', hr', rfl⟩ := List.mem_map.mp hd
        obtain ⟨r, hr, rfl⟩ := List.mem_map.mp hr'
        have hdue := (isDueRem_iff t r).mp (List.mem_filter.mp hr).2
        exact ⟨p, hp, by simpa using hum, r, (List.mem_filter.mp hr).1,
          hdue.1, hdue.2, rfl⟩
  · rintro ⟨p, hp, hum, r, hr, hsent, hdue, rfl⟩
    refine ⟨p, hp, ?_⟩
    rw [if_neg (by simpa using hum)]
    have hmem : decorateRem r ∈ (p.2.filter (isDueRem t)).map decorateRem :=
      List.mem_map_of_mem _ (List.mem_filter.mpr ⟨hr, (isDueRem_iff t r).mpr ⟨hsent, hdue⟩⟩)
    rw [if_neg (by simpa using List.ne_nil_of_mem hmem)]
    exact List.mem_map_of_mem _ hmem

theorem isUpcoming_iff (t hours : Nat) (tk : TaskRec) :
    isUpcoming t hours tk = true ↔
      ∃ s, tk.deadline = some s ∧ s ≠ "" ∧ tk.completed = false ∧
        tk.reminder_sent = false ∧
        ∃ dl, fromIso s = some dl ∧ t ≤ dl ∧ dl ≤ t + hours * usPerHour := by
  unfold isUpcoming
  cases hdl : tk.deadline with
  | none => simp
  | some s =>
    cases hf : fromIso s with
    | none => simp [hf]
    | some dl => simp [hf, and_assoc]

/-- Membership characterization of `get_upcoming_deadlines()`'s result. -/
theorem getUp_mem_iff (t hours : Nat) (db : DB) (u : UpRec) :
    u ∈ (getUpcomingDeadlines t db hours).1 ↔
      ∃ p ∈ db.doc.users, ∃ tk ∈ p.2,
        (∃ s, tk.deadline = some s ∧ s ≠ "" ∧ tk.completed = false ∧
          tk.reminder_sent = false ∧
          ∃ dl, fromIso s = some dl ∧ t ≤ dl ∧ dl ≤ t + hours * usPerHour) ∧
        u = ⟨resolveUser db.doc p.1, p.1, decorateTask tk⟩ := by
  unfold getUpcomingDeadlines
  simp only
  rw [mem_flatMapP]
  constructor
  · rintro ⟨p, hp, hd⟩
    split at hd
    · cases hd
    · obtain ⟨tk', htk', rfl⟩ := List.mem_map.mp hd
      obtain ⟨tk, htk, rfl⟩ := List.mem_map.mp htk'
      exact ⟨p, hp, tk, (List.mem_filter.mp htk).1,
        (isUpcoming_iff t hours tk).mp (List.mem_filter.mp htk).2, rfl⟩
  · rintro ⟨p, hp, tk, htk, hcond, rfl⟩
    refine ⟨p, hp, ?_⟩
    have hmem : decorateTask tk ∈ (p.2.filter (isUpcoming t hours)).map decorateTask :=
      List.mem_map_of_mem _
        (List.mem_filter.mpr ⟨htk, (isUpcoming_iff t hours tk).mpr hcond⟩)
    rw [if_neg (by simpa using List.ne_nil_of_mem hmem)]
    exact List.mem_map_of_mem _ hmem

/-- In a `setKey` image with unique keys, the entry at the written key is the
    written one. -/
theorem mem_setKey_eq_of_nodup {α : Type} {k : String} {v : α} {l : List (String × α)}
    {p : String × α} (hn : (l.map Prod.fst).Nodup) (hp : p ∈ setKey k v l)
    (hk : p.1 = k) : p = (k, v) := by
  induction l with
  | nil =>
    simpa [setKey] using hp
  | cons q qs ih =>
    simp only [List.map_cons, List.nodup_cons] at hn
    rw [setKey] at hp
    by_cases hq : q.1 == k
    · rw [if_pos hq] at hp
      rcases List.mem_cons.mp hp with he | hm
      · exact he
      · exfalso
        apply hn.1
        rw [eq_of_beq hq, ← hk]
        exact List.mem_map_of_mem Prod.fst hm
    · rw [if_neg hq] at hp
      rcases List.mem_cons.mp hp with he | hm
      · exfalso
        rw [he] at hk
        exact absurd (beq_iff_eq.mpr hk) (by simpa using hq)
      · exact ih hn.2 hm

/-- After `mark_reminder_sent` flips the (unique) reminder with the given id,
    every reminder still carrying that id is marked. -/
theorem modifyFirst_marks_unique {rs : List ReminderRec} {rid : Nat}
    (hn : (rs.map (fun r => r.id)).Nodup) :
    ∀ r ∈ modifyFirst (fun x => x.id == rid) (fun x => { x with sent := true }) rs,
      r.id = rid → r.sent = true := by
  induction rs with
  | nil => simp [modifyFirst]
  | cons q qs ih =>
    simp only [List.map_cons, List.nodup_cons] at hn
    rw [modifyFirst]
    by_cases hq : q.id == rid
    · rw [if_pos hq]
      intro r hr hid
      rcases List.mem_cons.mp hr with he | hm
      · rw [he]
      · exfalso
        apply hn.1
        rw [eq_of_beq hq, ← hid]
        exact List.mem_map_of_mem _ hm
    · rw [if_neg hq]
      intro r hr hid
      rcases List.mem_cons.mp hr with he | hm
      · exfalso
        rw [he] at hid
        exact absurd (beq_iff_eq.mpr hid) (by simpa using hq)
      · exact ih hn.2 r hm hid

/-! ## Date-pattern ordering (spec §4.3's "first pattern wins") -/

@[simp] theorem isDigitC_slash : isDigitC '/' = false := by decide

theorem digit_beq_ne {c d : Char} (h : isDigitC c = true) (hd : isDigitC d = false) :
    (d == c) = false := by
  apply beq_eq_false_iff_ne.mpr
  intro he
  rw [← he] at h
  rw [h] at hd
  cases hd

theorem rxLit_shape {c : Char} {cs r : List Char} (h : rxLit c cs = some r) :
    cs = c :: r := by
  cases cs with
  | nil => cases h
  | cons c' r' =>
    rw [rxLit] at h
    by_cases hc : c' == c
    · rw [if_pos hc] at h
      cases h
      rw [eq_of_beq hc]
    · rw [if_neg hc] at h
      cases h

theorem rxD12Lit_shape {lit : Char} {cs r : List Char} (h : rxD12Lit lit cs = some r) :
    slashShape lit cs := by
  match cs with
  | [] => cases h
  | [c0] => cases h
  | c0 :: c1 :: rest =>
    simp only [rxD12Lit] at h
    by_cases h0 : isDigitC c0
    · by_cases h1 : isDigitC c1
      · cases rest with
        | nil => simp [h0, h1] at h
        | cons c2 r2 =>
          by_cases h2 : c2 == lit
          · exact ⟨c0, c1, c2 :: r2, rfl, h0, Or.inr ⟨h1, r2, by rw [eq_of_beq h2]⟩⟩
          · simp [h0, h1, h2] at h
      · by_cases h2 : c1 == lit
        · exact ⟨c0, c1, rest, rfl, h0, Or.inl (eq_of_beq h2)⟩
        · simp [h0, h1, h2] at h
    · simp [h0] at h

@[simp] theorem isDigitC_i : isDigitC 'i' = false := by decide

/-- A digit-headed (stripped, lowercased) input never enters the `in N unit`
    branch of either parser. -/
theorem inPrefix_false_of_digit {c0 : Char} {t : List Char} (h : isDigitC c0 = true) :
    "in ".data.isPrefixOf (c0 :: t) = false := by
  rw [show "in ".data = ['i', 'n', ' '] from rfl]
  simp [List.isPrefixOf, digit_beq_ne h isDigitC_i]

/-- A slash-shaped head blocks any pattern that opens with four digits. -/
theorem fixedDigits4_none_of_slashShape {cs : List Char} (h : slashShape '/' cs) :
    fixedDigits 4 cs = none := by
  obtain ⟨c0, c1, rest, hcs, h0, hc⟩ := h
  subst hcs
  rcases hc with h1 | ⟨h1, r2, hr⟩
  · subst h1
    simp [fixedDigits, h0]
  · subst hr
    simp [fixedDigits, h0, h1]

/-- Hence the `YYYY-MM-DD HH:MM` gate rejects every slashed input. -/
theorem matchYmdHM_false_of_slashShape {cs : List Char} (h : slashShape '/' cs) :
    matchYmdHM cs = false := by
  simp [matchYmdHM, rxFixed, fixedDigits4_none_of_slashShape h]

/-- And `strptime` with `%Y-%m-%d %H:%M` fails on every slashed input. -/
theorem spYmdHM_none_of_slashShape {cs : List Char} (h : slashShape '/' cs) :
    spYmdHM cs = none := by
  rw [spYmdHM, strpDT, spDateYmd]
  rw [fixedDigits4_none_of_slashShape h]
  rfl

/-- A successful slash gate pins down the input's head shape. -/
theorem matchSlashDT_shape {cs : List Char} (h : matchSlashDT cs = true) :
    slashShape '/' cs := by
  rw [matchSlashDT] at h
  cases hr : rxD12Lit '/' cs with
  | none => rw [hr] at h; simp at h
  | some r => exact rxD12Lit_shape hr

/-- What a successful 1–2-digit field consumed. -/
theorem spField_elim {v2 v1 : Nat → Bool} {cs r : List Char} {v : Nat}
    (h : spField v2 v1 cs = some (v, r)) :
    ∃ c0, isDigitC c0 = true ∧
      (cs = c0 :: r ∨ ∃ c1, isDigitC c1 = true ∧ cs = c0 :: c1 :: r) := by
  match cs with
  | [] => cases h
  | [c0] =>
    simp only [spField] at h
    by_cases hd : (isDigitC c0 && v1 (digitVal c0)) = true
    · rw [if_pos hd] at h
      cases h
      simp only [Bool.and_eq_true] at hd
      exact ⟨c0, hd.1, Or.inl rfl⟩
    · rw [if_neg hd] at h
      cases h
  | c0 :: c1 :: t =>
    simp only [spField] at h
    by_cases h0 : isDigitC c0
    · rw [if_pos h0] at h
      by_cases h1 : isDigitC c1
      · rw [if_pos h1] at h
        by_cases hv : v2 (digitVal c0 * 10 + digitVal c1)
        · rw [if_pos hv] at h
          cases h
          exact ⟨c0, h0, Or.inr ⟨c1, h1, rfl⟩⟩
        · rw [if_neg hv] at h
          cases h
      · rw [if_neg h1] at h
        by_cases hv : v1 (digitVal c0)
        · rw [if_pos hv] at h
          cases h
          exact ⟨c0, h0, Or.inl rfl⟩
        · rw [if_neg hv] at h
          cases h
    · rw [if_neg h0] at h
      cases h

/-- A successful `%m/%d/%Y` (or `%d/%m/%Y`) parse forces the slash shape. -/
theorem spDateMdY_slashShape {cs : List Char} {out : Nat × Nat × Nat × List Char}
    (h : spDateMdY cs = some out) : slashShape '/' cs := by
  rw [spDateMdY] at h
  cases hm : spM cs with
  | none => rw [hm] at h; cases h
  | some p =>
    obtain ⟨m, r1⟩ := p
    rw [hm] at h
    simp only [Option.bind_eq_bind, Option.some_bind] at h
    cases hl : rxLit '/' r1 with
    | none => rw [hl] at h; cases h
    | some r2 =>
      obtain ⟨c0, h0, hsh⟩ := spField_elim hm
      have hr1 := rxLit_shape hl
      rcases hsh with hcs | ⟨c1, h1, hcs⟩
      · exact ⟨c0, '/', r2, by rw [hcs, hr1], h0, Or.inl rfl⟩
      · exact ⟨c0, c1, r1, by rw [hcs], h0, Or.inr ⟨h1, r2, hr1⟩⟩

/-- `fixedDigits` consumes a prefix: its rest is a suffix of the input. -/
theorem fixedDigits_suffix : ∀ (n : Nat) (cs : List Char) (v : Nat) (r : List Char),
    fixedDigits n cs = some (v, r) → r <:+ cs := by
  intro n
  induction n with
  | zero =>
    intro cs v r h
    rw [fixedDigits] at h
    cases h
    exact List.suffix_rfl
  | succ k ih =>
    intro cs v r h
    match cs with
    | [] => cases h
    | c :: t =>
      rw [fixedDigits] at h
      by_cases hc : isDigitC c
      · rw [if_pos hc] at h
        cases hf : fixedDigits k t with
        | none => rw [hf] at h; cases h
        | some p =>
          obtain ⟨v2, r2⟩ := p
          rw [hf] at h
          cases h
          exact (ih t _ _ hf).trans (List.suffix_cons c t)
      · rw [if_neg hc] at h
        cases h

theorem rxLit_suffix {c : Char} {cs r : List Char} (h : rxLit c cs = some r) :
    r <:+ cs := by
  rw [rxLit_shape h]
  exact List.suffix_cons c r

theorem spField_suffix {v2 v1 : Nat → Bool} {cs r : List Char} {v : Nat}
    (h : spField v2 v1 cs = some (v, r)) : r <:+ cs := by
  obtain ⟨c0, h0, hsh | ⟨c1, h1, hsh⟩⟩ := spField_elim h
  · rw [hsh]
    exact List.suffix_cons c0 r
  · rw [hsh]
    exact (List.suffix_cons c1 r).trans (List.suffix_cons c0 (c1 :: r))

/-- What a successful `\s+` step consumed. -/
theorem spWs_elim {cs r : List Char} (h : spWs cs = some r) :
    ∃ c t, cs = c :: t ∧ isWsC c = true ∧ r = t.dropWhile isWsC := by
  match cs with
  | [] => cases h
  | c :: t =>
    rw [spWs] at h
    by_cases hw : isWsC c
    · rw [if_pos hw] at h
      cases h
      exact ⟨c, t, rfl, hw, rfl⟩
    · rw [if_neg hw] at h
      cases h

/-- The rest after a `%m/%d/%Y` date is a suffix of the input. -/
theorem spDateMdY_suffix {cs : List Char} {y m d : Nat} {r : List Char}
    (h : spDateMdY cs = some (y, m, d, r)) : r <:+ cs := by
  rw [spDateMdY] at h
  cases hm : spM cs with
  | none => rw [hm] at h; cases h
  | some p =>
    obtain ⟨m1, r1⟩ := p
    rw [hm] at h
    simp only [Option.bind_eq_bind, Option.some_bind] at h
    cases hl : rxLit '/' r1 with
    | none => rw [hl] at h; cases h
    | some r2 =>
      rw [hl] at h
      simp only [Option.some_bind] at h
      cases hd : spDay r2 with
      | none => rw [hd] at h; cases h
      | some p2 =>
        obtain ⟨d1, r3⟩ := p2
        rw [hd] at h
        simp only [Option.some_bind] at h
        cases hl2 : rxLit '/' r3 with
        | none => rw [hl2] at h; cases h
        | some r4 =>
          rw [hl2] at h
          simp only [Option.some_bind] at h
          cases hy : fixedDigits 4 r4 with
          | none => rw [hy] at h; cases h
          | some p3 =>
            obtain ⟨y1, r5⟩ := p3
            rw [hy] at h
            simp only [Option.some_bind] at h
            cases h
            exact ((((fixedDigits_suffix 4 r4 _ _ hy).trans
              (rxLit_suffix hl2)).trans (spField_suffix hd)).trans
              (rxLit_suffix hl)).trans (spField_suffix hm)

/-- A successful `%H:%M` parse means the input holds a colon. -/
theorem spTimeHM_colon {cs : List Char} {out : Nat × Nat × Nat × List Char}
    (h : spTimeHM cs = some out) : ':' ∈ cs := by
  rw [spTimeHM] at h
  cases hh : spH cs with
  | none => rw [hh] at h; cases h
  | some p =>
    obtain ⟨h1, r1⟩ := p
    rw [hh] at h
    simp only [Option.bind_eq_bind, Option.some_bind] at h
    cases hl : rxLit ':' r1 with
    | none => rw [hl] at h; cases h
    | some r2 =>
      apply (spField_suffix hh).subset
      rw [rxLit_shape hl]
      exact List.mem_cons_self ':' r2

/-- Destructure a successful full `DATE TIME` parse into its three stages. -/
theorem strpDT_elim {dateP timeP : List Char → Option (Nat × Nat × Nat × List Char)}
    {cs : List Char} {i : Nat} (h : strpDT dateP timeP cs = some i) :
    ∃ y m d r1 r2 o2, dateP cs = some (y, m, d, r1) ∧ spWs r1 = some r2 ∧
      timeP r2 = some o2 := by
  rw [strpDT] at h
  cases hd : dateP cs with
  | none => rw [hd] at h; cases h
  | some q =>
    obtain ⟨y, m, d, r1⟩ := q
    rw [hd] at h
    simp only [Option.bind_eq_bind, Option.some_bind] at h
    cases hw : spWs r1 with
    | none => rw [hw] at h; cases h
    | some r2 =>
      rw [hw] at h
      simp only [Option.some_bind] at h
      cases ht : timeP r2 with
      | none => rw [ht] at h; cases h
      | some o2 => exact ⟨y, m, d, r1, r2, o2, rfl, hw, ht⟩

/-- In `_parse_deadline` the slashed date+time family is decided entirely by
    the first-listed `%m/%d/%Y %H:%M` pattern: whenever the (twice-listed)
    slash gate matches, the second, `%d/%m/%Y` branch is unreachable. -/
theorem parseDeadline_slashGate (s : String) (now : Nat)
    (h : matchSlashDT ((pyStrip s.data).map Char.toLower) = true) :
    parseDeadline now s =
      match spMdYHM ((pyStrip s.data).map Char.toLower) with
      | some i => Except.ok i
      | none => Except.error ("Invalid deadline format: "
          ++ String.mk ((pyStrip s.data).map Char.toLower)) := by
  obtain ⟨c0, c1, rest, hcs, h0, -⟩ := matchSlashDT_shape h
  have hpre : "in ".data.isPrefixOf ((pyStrip s.data).map Char.toLower) = false := by
    rw [hcs]
    exact inPrefix_false_of_digit h0
  have hymd := matchYmdHM_false_of_slashShape (matchSlashDT_shape h)
  rw [parseDeadline]
  simp only [hpre, Bool.false_eq_true, if_false]
  rw [absoluteDeadline]
  simp only [hymd, Bool.false_eq_true, if_false, h, if_true]

/-- In `_parse_reminder_time`, whenever the first-listed `%m/%d/%Y %H:%M`
    format parses the (stripped, lowercased) input, its reading is the
    function's result: earlier branches are skipped and `%Y-%m-%d %H:%M`
    fails on the slashed shape. -/
theorem parseReminderTime_MdYHM (s : String) (now i : Nat)
    (h : spMdYHM ((pyStrip s.data).map Char.toLower) = some i) :
    parseReminderTime now s = Except.ok i := by
  obtain ⟨y, m, d, r1, r2, o2, hdate, hws, htime⟩ := strpDT_elim h
  have hshape := spDateMdY_slashShape hdate
  obtain ⟨c0, c1, rest, hcs, h0, -⟩ := spDateMdY_slashShape hdate
  have hpre : "in ".data.isPrefixOf ((pyStrip s.data).map Char.toLower) = false := by
    rw [hcs]
    exact inPrefix_false_of_digit h0
  have hr1suf : r1 <:+ (pyStrip s.data).map Char.toLower := spDateMdY_suffix hdate
  obtain ⟨cw, tw, hr1, hwsc, hr2⟩ := spWs_elim hws
  have hcol : containsChar ':' ((pyStrip s.data).map Char.toLower) = true := by
    have h1 : ':' ∈ r2 := spTimeHM_colon htime
    have h2 : ':' ∈ (pyStrip s.data).map Char.toLower := by
      apply hr1suf.subset
      rw [hr1]
      apply List.mem_cons_of_mem
      rw [hr2] at h1
      exact (List.dropWhile_suffix isWsC).subset h1
    simpa [containsChar, List.contains, List.elem_iff] using h2
  have hws2 : hasWs ((pyStrip s.data).map Char.toLower) = true := by
    apply List.any_eq_true.mpr
    refine ⟨cw, ?_, hwsc⟩
    apply hr1suf.subset
    rw [hr1]
    exact List.mem_cons_self cw tw
  have hymd : spYmdHM ((pyStrip s.data).map Char.toLower) = none :=
    spYmdHM_none_of_slashShape hshape
  rw [parseReminderTime]
  simp only [hpre, Bool.false_eq_true, if_false, hcol, if_true, hws2,
    Bool.not_true, firstDT, hymd, h]

/-! ## Per-claim supporting lemmas -/

/-- The structure update writing `user_mapping` leaves the task lists alone. -/
theorem userTasks_update_mapping (d : Doc) (v : List (String × String)) (k : String) :
    userTasks { d with user_mapping := v } k = userTasks d k := rfl

/-- `add_task` declines exactly when the capacity test fires. -/
theorem addTask_false_iff (t : Nat) (uid content : String) (dl : Option String) (db : DB)
    (h : StoreInv db) :
    ((addTask t uid content dl db).1 = false ↔
      (userTasks db.doc (hashUserId uid)).length = MAX_TASKS_PER_USER) := by
  have hlen := (userTasks_facts h (hashUserId uid)).1
  rw [addTask]
  simp only [userTasks_update_mapping, MAX_TASKS_PER_USER]
  split
  · rename_i hge
    refine ⟨fun _ => (by omega), fun _ => rfl⟩
  · rename_i hlt
    refine ⟨fun hfalse => (by cases hfalse), fun he => absurd he (by omega)⟩

/-- The in-place decoration `get_due_reminders` performs never touches a
    `sent` flag. -/
theorem getDue_sent_preserved (t : Nat) (db : DB) :
    (getDueReminders t db).2.doc.reminders.map (fun p => (p.1, p.2.map (fun r => r.sent)))
      = db.doc.reminders.map (fun p => (p.1, p.2.map (fun r => r.sent))) := by
  unfold getDueReminders
  simp only
  rw [List.map_map]
  apply List.map_congr_left
  intro p _
  by_cases hum : p.1 == "user_mapping"
  · have he := eq_of_beq hum
    simp [he]
  · simp only [Function.comp, hum, Bool.false_eq_true, if_false]
    rw [List.map_map]
    apply congrArg (Prod.mk p.1)
    apply List.map_congr_left
    intro r _
    by_cases hd : isDueRem t r
    · simp [hd, decorateRem]
    · simp [hd]

/-- On success `mark_reminder_sent` stores the flipped list at the pseudonym. -/
theorem markRemSent_success_doc {t : Nat} {h0 : String} {rid : Nat} {db : DB}
    (hs : (markReminderSent t h0 rid db).1 = true) :
    (markReminderSent t h0 rid db).2.doc.reminders
      = setKey h0 (modifyFirst (fun r => r.id == rid) (fun r => { r with sent := true })
          ((lookupKey h0 db.doc.reminders).getD [])) db.doc.reminders := by
  by_cases hany : ((lookupKey h0 db.doc.reminders).getD []).any (fun r => r.id == rid)
  · rw [markReminderSent]
    simp only [hany, if_true]
    rw [doc_saveData]
  · exfalso
    rw [markReminderSent] at hs
    simp only [hany, Bool.false_eq_true, if_false] at hs

/-- `add_task` (re)writes the identity-mapping entry on both outcomes. -/
theorem addTask_mapping (t : Nat) (uid task : String) (dl : Option String) (db : DB) :
    lookupKey (hashUserId uid) (addTask t uid task dl db).2.doc.user_mapping
      = some (encryptData uid) := by
  rw [addTask]
  simp only
  split
  · exact lookupKey_setKey_self _ _ _
  · rw [doc_saveData]
    exact lookupKey_setKey_self _ _ _

/-- `add_reminder` (re)writes the identity-mapping entry on both outcomes. -/
theorem addReminder_mapping (t : Nat) (uid msg ts : String) (db : DB) :
    lookupKey (hashUserId uid) (addReminder t uid msg ts db).2.doc.user_mapping
      = some (encryptData uid) := by
  rw [addReminder]
  simp only
  cases hrem : lookupKey (hashUserId uid) db.doc.reminders with
  | some rs0 =>
    dsimp only
    split
    · exact lookupKey_setKey_self _ _ _
    · rw [doc_saveData]
      exact lookupKey_setKey_self _ _ _
  | none =>
    dsimp only
    split
    · exact lookupKey_setKey_self _ _ _
    · rw [doc_saveData]
      exact lookupKey_setKey_self _ _ _

/-- `clear_all_tasks` removes the caller's identity-mapping entry. -/
theorem clearAll_mapping {db : DB} (h : StoreInv db) (t : Nat) (uid : String) :
    lookupKey (hashUserId uid) (clearAllTasks t uid db).2.doc.user_mapping = none := by
  rw [clearAllTasks]
  simp only
  rw [doc_saveData]
  exact lookupKey_removeKey_self h.2.2.2.2

/-- `clear_all_tasks` leaves the reminder store untouched. -/
theorem clearAll_reminders (t : Nat) (uid : String) (db : DB) :
    (clearAllTasks t uid db).2.doc.reminders = db.doc.reminders := by
  rw [clearAllTasks]
  simp only
  rw [doc_saveData]

/-! ## The claims -/

/-- C1: `add_task` returns `False` exactly when the owner already holds the
    configured maximum of 50 tasks; no sequence of repository operations ever
    pushes a task list past 50; and after 50 successful adds by one owner the
    51st add is declined with the list still at 50. -/
theorem claim_C1 :
    (∀ (t : Nat) (uid content : String) (dl : Option String) (db : DB), StoreInv db →
      ((addTask t uid content dl db).1 = false ↔
        (userTasks db.doc (hashUserId uid)).length = MAX_TASKS_PER_USER)) ∧
    (∀ (t0 : Nat) (ops : List Op) (k : String),
      (userTasks (runOps ops (initDB t0)).doc k).length ≤ MAX_TASKS_PER_USER) ∧
    (((List.range 50).all fun k =>
        (addTask 0 "u" "tk" none (addStep^[k] (initDB 0))).1) = true ∧
      (addTask 0 "u" "tk" none (addStep^[50] (initDB 0))).1 = false ∧
      (userTasks (addStep^[50] (initDB 0)).doc (hashUserId "u")).length = 50) := by
  refine ⟨?_, ?_, by decide, by decide, by decide⟩
  · intro t uid content dl db h
    exact addTask_false_iff t uid content dl db h
  · intro t0 ops k
    have hinv := storeInv_runOps ops (initDB t0) (storeInv_initDB t0)
    exact (userTasks_facts hinv k).1

/-- C2: after any operation sequence, every owner's task ids are exactly the
    dense range `1..N` (hence unique), and likewise every owner's reminder
    ids. -/
theorem claim_C2 :
    ∀ (t0 : Nat) (ops : List Op) (k : String),
      ((userTasks (runOps ops (initDB t0)).doc k).map (fun tk => tk.id)
          = List.range' 1 (userTasks (runOps ops (initDB t0)).doc k).length ∧
        ((userTasks (runOps ops (initDB t0)).doc k).map (fun tk => tk.id)).Nodup) ∧
      (((lookupKey k (runOps ops (initDB t0)).doc.reminders).getD []).map (fun r => r.id)
          = List.range' 1 ((lookupKey k (runOps ops (initDB t0)).doc.reminders).getD []).length ∧
        (((lookupKey k (runOps ops (initDB t0)).doc.reminders).getD []).map
            (fun r => r.id)).Nodup) := by
  intro t0 ops k
  have hinv := storeInv_runOps ops (initDB t0) (storeInv_initDB t0)
  have h1 := userTasks_facts hinv k
  have h2 := userRems_facts hinv k
  exact ⟨⟨h1.2, dense_nodup h1.2⟩, ⟨h2.2, dense_nodup h2.2⟩⟩

/-- C3: `get_due_reminders()` returns exactly the unsent reminders whose
    stored fire time parses and is `<= now`, paired with the pseudonym and the
    mapping-resolved identifier (`none` when the mapping entry is missing); it
    flips no `sent` flag itself; and once `mark_reminder_sent` succeeds, no
    later scan returns that owner's reminder id again. -/
theorem claim_C3 :
    (∀ (t : Nat) (db : DB) (d : DueRec),
      d ∈ (getDueReminders t db).1 ↔
        ∃ p ∈ db.doc.reminders, p.1 ≠ "user_mapping" ∧
          ∃ r ∈ p.2, r.sent = false ∧
            (∃ ft, fromIso r.reminder_time = some ft ∧ ft ≤ t) ∧
            d = ⟨resolveUser db.doc p.1, p.1, decorateRem r⟩) ∧
    (∀ (t : Nat) (db : DB),
      (getDueReminders t db).2.doc.reminders.map (fun p => (p.1, p.2.map (fun r => r.sent)))
        = db.doc.reminders.map (fun p => (p.1, p.2.map (fun r => r.sent)))) ∧
    (∀ (t : Nat) (h0 : String) (rid : Nat) (db : DB), StoreInv db →
      (markReminderSent t h0 rid db).1 = true →
      ∀ (t2 : Nat) (d : DueRec),
        d ∈ (getDueReminders t2 (markReminderSent t h0 rid db).2).1 →
        d.hashed_user_id = h0 → d.reminder.id ≠ rid) := by
  refine ⟨getDue_mem_iff, getDue_sent_preserved, ?_⟩
  intro t h0 rid db hinv hs t2 d hd hhash hid
  have hdoc := markRemSent_success_doc hs
  rw [getDue_mem_iff] at hd
  obtain ⟨p, hp, hum, r, hr, hsent, hdue, hdeq⟩ := hd
  have hph : p.1 = h0 := by rw [hdeq] at hhash; exact hhash
  rw [hdoc] at hp
  have hpe := mem_setKey_eq_of_nodup hinv.2.2.2.1 hp hph
  have hrs2 : r ∈ modifyFirst (fun x => x.id == rid) (fun x => { x with sent := true })
      ((lookupKey h0 db.doc.reminders).getD []) := by
    rw [hpe] at hr
    exact hr
  have hidr : r.id = rid := by
    have hre : d.reminder = decorateRem r := by rw [hdeq]
    rw [hre] at hid
    exact hid
  have hmarked := modifyFirst_marks_unique
    (dense_nodup (userRems_facts hinv h0).2) r hrs2 hidr
  rw [hmarked] at hsent
  cases hsent

/-- C3 at a concrete store: with two due reminders and id 1 marked sent, the
    scan still returns the id-2 entry and the marked id cannot reappear. -/
theorem claim_C3_witness :
    StoreInv dbC3 ∧ (markReminderSent 3 (hashUserId "u") 1 dbC3).1 = true ∧
    dueD2 ∈ (getDueReminders (mkInstant 2024 6 1 0 0 0 0)
        (markReminderSent 3 (hashUserId "u") 1 dbC3).2).1 ∧
    dueD2.reminder.id ≠ 1 :=
  ⟨by decide, by decide, by decide,
    claim_C3.2.2 3 (hashUserId "u") 1 dbC3 (by decide) (by decide)
      (mkInstant 2024 6 1 0 0 0 0) dueD2 (by decide) (by decide)⟩

/-- C4: `get_upcoming_deadlines` returns exactly the tasks with a (truthy)
    deadline set, not completed, deadline reminder unsent, and deadline within
    `[now, now + hours_ahead]`; concretely, at the default 12-hour lookahead a
    deadline 11 hours out is returned, while 13 hours out or completed are
    not. -/
theorem claim_C4 :
    (∀ (t hours : Nat) (db : DB) (u : UpRec),
      u ∈ (getUpcomingDeadlines t db hours).1 ↔
        ∃ p ∈ db.doc.users, ∃ tk ∈ p.2,
          (∃ s, tk.deadline = some s ∧ s ≠ "" ∧ tk.completed = false ∧
            tk.reminder_sent = false ∧
            ∃ dl, fromIso s = some dl ∧ t ≤ dl ∧ dl ≤ t + hours * usPerHour) ∧
          u = ⟨resolveUser db.doc p.1, p.1, decorateTask tk⟩) ∧
    ((getUpcomingDeadlines c4now c4db).1.map (fun u => u.hashed_user_id) = ["Hu"]) :=
  ⟨getUp_mem_iff, by decide⟩

/-- C5: the claimed read-only decryption is violated — `get_tasks` writes the
    decrypted plaintext into the stored record (the stored `task` field goes
    from `none` to `some "buy milk"`), and a subsequent save persists exactly
    that document, plaintext content field included (the load of the saved
    file returns it verbatim). -/
theorem claim_C5 :
    ((userTasks (addTask 0 "u" "buy milk" none (initDB 0)).2.doc (hashUserId "u")).map
        (fun tk => tk.task) = [none]) ∧
    ((userTasks (getTasks "u" (addTask 0 "u" "buy milk" none (initDB 0)).2).2.doc
        (hashUserId "u")).map (fun tk => tk.task) = [some "buy milk"]) ∧
    loadDoc (forceSave 0 (getTasks "u" (addTask 0 "u" "buy milk" none (initDB 0)).2).2).file
      = some (getTasks "u" (addTask 0 "u" "buy milk" none (initDB 0)).2).2.doc :=
  ⟨by decide, by decide, loadDoc_forceSave 0 _ (by decide)⟩

/-- C6: for every non-empty document (whose user keys avoid the two reserved
    names, as every reachable document's `hashUserId` keys do), a forced save
    followed by a fresh load reproduces the document, and the whole-blob
    encryption/decryption pair composes to the identity on the serialized
    JSON. -/
theorem claim_C6 (t : Nat) (db : DB) (hne : docNonEmpty db.doc = true)
    (hu : ∀ p ∈ db.doc.users, p.1 ≠ "user_mapping" ∧ p.1 ≠ "reminders") :
    loadDoc (forceSave t db).file = some db.doc ∧
    decryptData (encryptData (String.mk (jrender (docToJval db.doc))))
      = String.mk (jrender (docToJval db.doc)) :=
  ⟨loadDoc_forceSave t db hu, decrypt_encrypt _⟩

/-- C6 at a concrete store: one stored task round-trips through save/load. -/
theorem claim_C6_witness :
    docNonEmpty (addTask 0 "u" "c" none (initDB 0)).2.doc = true ∧
    loadDoc (forceSave 7 (addTask 0 "u" "c" none (initDB 0)).2).file
      = some (addTask 0 "u" "c" none (initDB 0)).2.doc :=
  ⟨by decide, (claim_C6 7 (addTask 0 "u" "c" none (initDB 0)).2 (by decide) (by decide)).1⟩

/-- C7: the three spec'd parser postconditions, exact to the microsecond:
    `"in 2 hours"` yields `now + 2h`; the deadline `"2024-12-31"` yields
    2024-12-31T23:59:00; the reminder `"2024-12-31"` yields
    2024-12-31T09:00:00. -/
theorem claim_C7 :
    (∀ now : Nat, parseDeadline now "in 2 hours" = Except.ok (now + 2 * usPerHour)) ∧
    (∀ now : Nat, parseDeadline now "2024-12-31" = Except.ok (mkInstant 2024 12 31 23 59 0 0)) ∧
    (∀ now : Nat,
      parseReminderTime now "2024-12-31" = Except.ok (mkInstant 2024 12 31 9 0 0 0)) :=
  ⟨fun _ => rfl, fun _ => rfl, fun _ => rfl⟩

/-- C8: for every slashed date+time input, `_parse_deadline`'s result is
    decided entirely by the first-listed `%m/%d/%Y %H:%M` pattern (its
    identically-gated `%d/%m/%Y` branch is dead), and in
    `_parse_reminder_time` the first-listed `%m/%d/%Y %H:%M` wins whenever it
    parses — but there the `%d/%m/%Y` alternative is live fallback, not dead
    code (see the counterexample). -/
theorem claim_C8 :
    (∀ (s : String) (now : Nat),
      matchSlashDT ((pyStrip s.data).map Char.toLower) = true →
      parseDeadline now s =
        match spMdYHM ((pyStrip s.data).map Char.toLower) with
        | some i => Except.ok i
        | none => Except.error ("Invalid deadline format: "
            ++ String.mk ((pyStrip s.data).map Char.toLower))) ∧
    (∀ (s : String) (now i : Nat),
      spMdYHM ((pyStrip s.data).map Char.toLower) = some i →
      parseReminderTime now s = Except.ok i) :=
  ⟨parseDeadline_slashGate, parseReminderTime_MdYHM⟩

/-- C8 counterexample: `_parse_reminder_time` accepts `31/12/2024 10:30`
    through the `%d/%m/%Y` interpretation — `%m/%d/%Y` fails on it — so the
    DD/MM/YYYY alternative is not dead code in that parser. -/
theorem claim_C8_counterexample :
    parseReminderTime 0 "31/12/2024 10:30" = Except.ok (mkInstant 2024 12 31 10 30 0 0) ∧
    spMdYHM "31/12/2024 10:30".data = none ∧
    spDmYHM "31/12/2024 10:30".data = some (mkInstant 2024 12 31 10 30 0 0) :=
  ⟨rfl, rfl, rfl⟩

/-- C8 at concrete inputs: the deadline 12/31/2024 and the ambiguous reminder
    1/2/2024 both land on the `%m/%d/%Y` reading. -/
theorem claim_C8_witness :
    parseDeadline 5 "12/31/2024 10:30" =
      (match spMdYHM ((pyStrip "12/31/2024 10:30".data).map Char.toLower) with
        | some i => Except.ok i
        | none => Except.error ("Invalid deadline format: "
            ++ String.mk ((pyStrip "12/31/2024 10:30".data).map Char.toLower))) ∧
    parseReminderTime 5 "1/2/2024 3:45" = Except.ok (mkInstant 2024 1 2 3 45 0 0) :=
  ⟨claim_C8.1 "12/31/2024 10:30" 5 (by rfl),
    claim_C8.2 "1/2/2024 3:45" 5 (mkInstant 2024 1 2 3 45 0 0) (by rfl)⟩

/-- C9: a non-forced save writes the file exactly when the configured
    debounce interval has elapsed since the last completed save; otherwise it
    leaves the file alone and only sets the pending flag; a forced save
    always writes. -/
theorem claim_C9 :
    ∀ (t : Nat) (db : DB),
      ((saveDataF t false db).2 = true ↔
        DATABASE_SAVE_DEBOUNCE * usPerSec ≤ t - db.last_save) ∧
      ((saveDataF t false db).2 = false →
        (saveDataF t false db).1.file = db.file ∧
        (saveDataF t false db).1.save_pending = true) ∧
      (saveDataF t true db).2 = true := by
  intro t db
  by_cases hc : t - db.last_save < DATABASE_SAVE_DEBOUNCE * usPerSec
  · refine ⟨?_, ?_, rfl⟩
    · rw [saveDataF]
      simp only [Bool.not_false, Bool.true_and, hc, if_true]
      refine ⟨fun hfalse => (by cases hfalse), fun hle => absurd hle (by omega)⟩
    · intro _
      rw [saveDataF]
      simp only [Bool.not_false, Bool.true_and, hc, if_true]
      exact ⟨rfl, rfl⟩
  · refine ⟨?_, ?_, rfl⟩
    · rw [saveDataF]
      simp only [Bool.not_false, Bool.true_and, hc, if_false]
      refine ⟨fun _ => (by omega), fun _ => rfl⟩
    · rw [saveDataF]
      simp only [Bool.not_false, Bool.true_and, hc, if_false]
      intro hfalse
      cases hfalse

/-- C10: `clear_all_tasks` drops the identity-mapping entry even while the
    owner still has stored reminders, so every still-pending due reminder of
    that owner is thereafter reported with a `none` identifier, until a later
    `add_task` or `add_reminder` by the same owner rewrites the mapping
    entry. -/
theorem claim_C10 (t : Nat) (uid : String) (db : DB) (hinv : StoreInv db) :
    lookupKey (hashUserId uid) (clearAllTasks t uid db).2.doc.user_mapping = none ∧
    ((clearAllTasks t uid db).2.doc.reminders = db.doc.reminders ∧
      ∀ (t2 : Nat) (d : DueRec), d ∈ (getDueReminders t2 (clearAllTasks t uid db).2).1 →
        d.hashed_user_id = hashUserId uid → d.user_id = none) ∧
    (∀ (t3 : Nat) (c : String) (dl : Option String),
      lookupKey (hashUserId uid)
          (addTask t3 uid c dl (clearAllTasks t uid db).2).2.doc.user_mapping
        = some (encryptData uid)) ∧
    (∀ (t3 : Nat) (msg ts : String),
      lookupKey (hashUserId uid)
          (addReminder t3 uid msg ts (clearAllTasks t uid db).2).2.doc.user_mapping
        = some (encryptData uid)) := by
  refine ⟨clearAll_mapping hinv t uid, ⟨clearAll_reminders t uid db, ?_⟩,
    fun t3 c dl => addTask_mapping t3 uid c dl _,
    fun t3 msg ts => addReminder_mapping t3 uid msg ts _⟩
  intro t2 d hd hhash
  rw [getDue_mem_iff] at hd
  obtain ⟨p, hp, hum, r, hr, hsent, hdue, hdeq⟩ := hd
  have hph : p.1 = hashUserId uid := by rw [hdeq] at hhash; exact hhash
  have hu : d.user_id = resolveUser (clearAllTasks t uid db).2.doc p.1 := by
    rw [hdeq]
  rw [hu, hph, resolveUser, clearAll_mapping hinv t uid]
  rfl

/-- C10 at a concrete store: the owner of one pending reminder loses the
    mapping entry after `clear_all_tasks`. -/
theorem claim_C10_witness :
    StoreInv dbC10 ∧
    lookupKey (hashUserId "u") (clearAllTasks 4 "u" dbC10).2.doc.user_mapping = none :=
  ⟨by decide, (claim_C10 4 "u" dbC10 (by decide)).1⟩
